import Mathlib

/-!
Verification of the polymarket-mirror decode-and-derive pipeline.

This file gives a shallow embedding, in Lean 4, of the pure core of the
repository and proves the behavioural claims about it:

  - src/copy/calculator.ts   : buildCopyIntent and its helpers
  - src/onchain/decoder.ts   : matchesCalldata, computeMakerFill,
                               computeFillForTarget
  - src/onchain/watcher.ts   : makeHashCache (bounded recency set)
  - src/gamma/cache.ts       : createTtlCache (single-flight TTL cache)
  - src/copy/placer.ts       : createCopyPlacer / place

Modelling conventions, used throughout:

  - JavaScript bigint values are Lean Int; bigint division truncates
    toward zero, which is Int.tdiv.
  - JavaScript numbers that the code only ever uses as exact small
    quantities (the copy scale, prices in micro-units divided by 10^6 at
    the display boundary) are modelled as exact rationals; IEEE-754
    rounding is not modelled.  The one float operation on the data path,
    Math.floor on a rational, is the rational floor.
  - Fallible or absent JavaScript values (undefined, null, a field that
    is missing from a decoded record) are Option.
  - JavaScript truthiness is modelled where the source relies on it:
    0n, "" and undefined are falsy.
  - String.prototype.toLowerCase is per-character Char.toLower; all
    strings on this data path are ASCII hex strings and addresses.
-/

/-! ## Shared helpers for JavaScript semantics -/

/-- Truthiness of an optional bigint: undefined and 0n are falsy. -/
def intTruthy : Option Int → Bool
  | none => false
  | some n => n != 0

/-- Truthiness of an optional string: undefined and "" are falsy. -/
def strTruthy : Option String → Bool
  | none => false
  | some s => s != ""

/-- JavaScript toLowerCase restricted to ASCII, character by character. -/
def lowerStr (s : String) : String := String.mk (s.data.map Char.toLower)

/-- JavaScript bigint division: truncation toward zero. -/
def jsDiv (a b : Int) : Int := a.tdiv b

/-! ## src/copy/calculator.ts -/

/-- The fixed-point SCALE constant (10^6) of calculator.ts. -/
def SCALE : Int := 1000000

/-- Decimal digit accumulator used by the decimal-literal parser. -/
def parseDigitsAux : Nat → List Char → Option Nat
  | acc, [] => some acc
  | acc, c :: cs =>
    if c.isDigit then parseDigitsAux (acc * 10 + (c.toNat - 48)) cs
    else none

/-- BigInt(string) on a decimal literal: optional leading minus sign then
decimal digits; anything else throws, which is modelled as none.  The empty
string evaluates to 0 in JavaScript, but every caller guards it away first. -/
def jsBigInt (s : String) : Option Int :=
  match s.data with
  | '-' :: rest =>
    match rest, parseDigitsAux 0 rest with
    | [], _ => none
    | _, some n => some (-(n : Int))
    | _, none => none
  | cs => (parseDigitsAux 0 cs).map (fun n => (n : Int))

/-- toBigInt of calculator.ts: undefined and "" map to null, otherwise the
string is handed to BigInt. -/
def toBigInt : Option String → Option Int
  | none => none
  | some v => if v = "" then none else jsBigInt v

/-- applyScale of calculator.ts: the scale is floored to micro-units
(Math.floor(scale * SCALE)) and applied with bigint arithmetic. -/
def applyScale (value : Int) (scale : ℚ) : Int :=
  jsDiv (value * ⌊scale * (SCALE : ℚ)⌋) SCALE

/-- The observed-fill side tag of copy/types.ts. -/
inductive FillSide | BUY | SELL | UNKNOWN
deriving DecidableEq, Repr

/-- The venue side enum of the clob client. -/
inductive Side | BUY | SELL
deriving DecidableEq, Repr

/-- applySlippage of calculator.ts, on micro-unit prices. -/
def applySlippage (priceMicros : Int) (slippageBps : Int) (side : FillSide) : Int :=
  let delta := jsDiv (priceMicros * slippageBps) 10000
  if side = FillSide.BUY then priceMicros + delta
  else if side = FillSide.SELL then priceMicros - delta
  else priceMicros

/-- CopyConfig of copy/types.ts (the fields buildCopyIntent reads). -/
structure CopyConfig where
  scale : ℚ
  slippageBps : Int
  allowBuy : Bool
  allowSell : Bool

/-- CopyFill of copy/types.ts. -/
structure CopyFill where
  hash : Option String
  tokenId : String
  side : FillSide
  shares : Option String
  usdc : Option String

/-- CopyIntent of copy/types.ts; the four quantity fields are the decimal
values obtained by dividing the internal micro-unit integers by SCALE. -/
structure CopyIntent where
  tokenId : String
  side : Side
  size : ℚ
  price : ℚ
  impliedPrice : ℚ
  notional : ℚ
  hash : Option String
deriving DecidableEq, Repr

/-- The integer core of buildCopyIntent: everything after the scale > 0
check, with Math.floor(scale * SCALE) hoisted into the scaledMicros
argument (applyScale recomputes the same floor at both of its call
sites).  Returns the micro-unit quadruple
(copyShares, copyUsdc, priceMicros, limitMicros). -/
def buildCopyMicros (fill : CopyFill) (scaledMicros slippageBps : Int)
    (allowBuy allowSell : Bool) : Option (Int × Int × Int × Int) :=
  if fill.side = FillSide.BUY ∧ ¬allowBuy then none
  else if fill.side = FillSide.SELL ∧ ¬allowSell then none
  else
    match toBigInt fill.shares, toBigInt fill.usdc with
    | some shares, some usdc =>
      if shares ≤ 0 ∨ usdc ≤ 0 then none
      else
        let copyShares := jsDiv (shares * scaledMicros) SCALE
        let copyUsdc := jsDiv (usdc * scaledMicros) SCALE
        if copyShares ≤ 0 ∨ copyUsdc ≤ 0 then none
        else
          let priceMicros := jsDiv (usdc * SCALE) shares
          let limitMicros := applySlippage priceMicros slippageBps fill.side
          if limitMicros ≤ 0 then none
          else some (copyShares, copyUsdc, priceMicros, limitMicros)
    | _, _ => none

/-- buildCopyIntent of calculator.ts: guard the scale, run the integer
core, and convert the micro-unit integers to display decimals only at the
boundary (the source divides by Number(SCALE)). -/
def buildCopyIntent (fill : CopyFill) (config : CopyConfig) : Option CopyIntent :=
  if config.scale ≤ 0 then none
  else
    (buildCopyMicros fill ⌊config.scale * (SCALE : ℚ)⌋ config.slippageBps
        config.allowBuy config.allowSell).map fun m =>
      { tokenId := fill.tokenId
        side := if fill.side = FillSide.SELL then Side.SELL else Side.BUY
        size := (m.1 : ℚ) / (SCALE : ℚ)
        price := (m.2.2.2 : ℚ) / (SCALE : ℚ)
        impliedPrice := (m.2.2.1 : ℚ) / (SCALE : ℚ)
        notional := (m.2.1 : ℚ) / (SCALE : ℚ)
        hash := fill.hash }

/-- applyScale of the source equals the inlined form used in
buildCopyMicros. -/
theorem applyScale_eq (value : Int) (scale : ℚ) :
    applyScale value scale = jsDiv (value * ⌊scale * (SCALE : ℚ)⌋) SCALE := rfl

/-! ## src/onchain/decoder.ts -/

/-- The matchOrders function selector constant. -/
def MATCH_SELECTOR : String := "0x2287e350"

/-- Prefix test on character lists, the semantics of
String.prototype.startsWith. -/
def charsPrefix : List Char → List Char → Bool
  | [], _ => true
  | _ :: _, [] => false
  | a :: as, b :: bs => a = b && charsPrefix as bs

/-- Substring test on character lists, the semantics of
String.prototype.includes. -/
def charsContains : List Char → List Char → Bool
  | [], needle => needle.isEmpty
  | hay@(_ :: t), needle => charsPrefix needle hay || charsContains t needle

/-- data.startsWith(selector). -/
def jsStartsWith (s pre : String) : Bool := charsPrefix pre.data s.data

/-- data.includes(needle). -/
def jsIncludes (s sub : String) : Bool := charsContains s.data sub.data

/-- matchesCalldata of decoder.ts.  The unknown rawData argument is
Option String: none stands for any non-string input, and the leading
truthiness guard makes "" fail as well. -/
def matchesCalldata (rawData : Option String) (needle : String)
    (selector : String := MATCH_SELECTOR) : Bool :=
  match rawData with
  | none => false
  | some s =>
    if s = "" then false
    else
      let data := lowerStr s
      if ¬ jsStartsWith data selector then false
      else jsIncludes data (lowerStr needle)

/-- One decoded order leg (a Record whose fields the decoder reads
defensively; a missing or unconvertible field is none). -/
structure OrderRec where
  maker : Option String := none
  signer : Option String := none
  tokenId : Option Int := none
  makerAmount : Option Int := none
  takerAmount : Option Int := none
  side : Option Int := none
deriving DecidableEq, Repr

/-- The argument tuple of a decoded matchOrders call. -/
structure MatchArgs where
  takerOrder : OrderRec
  makerOrders : List OrderRec
  takerFillAmount : Option Int
  takerReceiveAmount : Option Int
  makerFillAmounts : List Int
deriving DecidableEq, Repr

/-- MatchDecoded of decoder.ts: a function name plus optional args. -/
structure MatchDecoded where
  functionName : String
  args : Option MatchArgs
deriving DecidableEq, Repr

/-- The empty record substituted by the source's `?? {}` fallbacks. -/
def emptyOrder : OrderRec := {}

/-- field?.toLowerCase() === target, where target is already lowercase. -/
def lowerFieldEq (field : Option String) (target : String) : Bool :=
  match field with
  | none => false
  | some s => lowerStr s = target

/-- The role tag of the decoder output. -/
inductive Role | MAKER | TAKER | UNKNOWN
deriving DecidableEq, Repr

/-- The side tag of the decoder output. -/
inductive SideTag | BUY | SELL | UNKNOWN
deriving DecidableEq, Repr

/-- FillBreakdown of decoder.ts. -/
structure FillBreakdown where
  role : Role
  side : SideTag
  tokenId : Option String
  shares : Option String
  usdc : Option String
deriving DecidableEq, Repr

/-- computeMakerFill of decoder.ts: the contribution of one maker leg at
fill amount fillAmount, as an optional (shares, usdc) pair.  A missing or
zero makerAmount or takerAmount (all falsy in the source's guard) routes
the fill straight through to the side implied by the leg. -/
def computeMakerFill (order : OrderRec) (fillAmount : Int) :
    Option Int × Option Int :=
  if ¬ intTruthy order.makerAmount ∨ ¬ intTruthy order.takerAmount then
    ((if order.side = some 1 then some fillAmount else none),
     (if order.side = some 0 then some fillAmount else none))
  else
    let makerAmount := order.makerAmount.getD 0
    let takerAmount := order.takerAmount.getD 0
    if order.side = some 0 then
      (some (jsDiv (fillAmount * takerAmount) makerAmount), some fillAmount)
    else if order.side = some 1 then
      (some fillAmount, some (jsDiv (fillAmount * takerAmount) makerAmount))
    else (none, none)

/-- The maker legs (with their list indices) whose maker or signer field
matches the lowercase target: the makerMatches filter of
computeFillForTarget. -/
def makerMatchesOf (makerOrders : List OrderRec) (target : String) :
    List (Nat × OrderRec) :=
  makerOrders.enum.filter fun p =>
    lowerFieldEq p.2.maker target || lowerFieldEq p.2.signer target

/-- The MAKER-role accumulation loop of computeFillForTarget: fold the
per-leg contributions of computeMakerFill over the matching legs, skipping
a leg whose makerFillAmounts entry is out of range. -/
def makerSums (legs : List (Nat × OrderRec)) (makerFillAmounts : List Int) :
    Int × Int :=
  legs.foldl
    (fun acc p =>
      match makerFillAmounts.get? p.1 with
      | none => acc
      | some fill =>
        let r := computeMakerFill p.2 fill
        (acc.1 + (match r.1 with | some s => s | none => 0),
         acc.2 + (match r.2 with | some u => u | none => 0)))
    (0, 0)

/-- The TAKER-role branch of computeFillForTarget, returning the optional
(shares, usdc) pair.  The fallback derivation requires takerFillAmount,
makerAmount and takerAmount all truthy (present and nonzero). -/
def takerBranch (takerOrder : OrderRec) (fill receive : Option Int)
    (side : SideTag) : Option Int × Option Int :=
  let makerAmount := takerOrder.makerAmount
  let takerAmount := takerOrder.takerAmount
  let derived : Option Int :=
    if intTruthy fill ∧ intTruthy makerAmount ∧ intTruthy takerAmount then
      some (jsDiv (fill.getD 0 * takerAmount.getD 0) (makerAmount.getD 0))
    else none
  if side = SideTag.BUY then
    ((match receive with | some r => some r | none => derived), fill)
  else if side = SideTag.SELL then
    (fill, (match receive with | some r => some r | none => derived))
  else (none, none)

/-- computeFillForTarget of decoder.ts. -/
def computeFillForTarget (decoded : Option MatchDecoded)
    (targetAddress : String) : Option FillBreakdown :=
  match decoded with
  | none => none
  | some d =>
    if d.functionName ≠ "matchOrders" then none
    else
      let target := lowerStr targetAddress
      let takerOrder := (d.args.map MatchArgs.takerOrder).getD emptyOrder
      let makerOrders := (d.args.map MatchArgs.makerOrders).getD []
      let takerFillAmount := d.args.bind MatchArgs.takerFillAmount
      let takerReceiveAmount := d.args.bind MatchArgs.takerReceiveAmount
      let makerFillAmounts := (d.args.map MatchArgs.makerFillAmounts).getD []
      let takerRole := lowerFieldEq takerOrder.maker target
        || lowerFieldEq takerOrder.signer target
      let makerMatches := makerMatchesOf makerOrders target
      let role : Role :=
        if takerRole then Role.TAKER
        else if makerMatches ≠ [] then Role.MAKER
        else Role.UNKNOWN
      let side : SideTag :=
        if takerOrder.side = some 0 then SideTag.BUY
        else if takerOrder.side = some 1 then SideTag.SELL
        else SideTag.UNKNOWN
      let tokenId : Option String :=
        match takerOrder.tokenId with
        | some t => if t = 0 then none else some (toString t)
        | none => none
      let su : Option Int × Option Int :=
        if role = Role.TAKER then
          takerBranch takerOrder takerFillAmount takerReceiveAmount side
        else if role = Role.MAKER then
          let sums := makerSums makerMatches makerFillAmounts
          ((if sums.1 > 0 then some sums.1 else none),
           (if sums.2 > 0 then some sums.2 else none))
        else (none, none)
      some
        { role := role
          side := side
          tokenId := tokenId
          shares := su.1.map toString
          usdc := su.2.map toString }

/-! ## src/onchain/watcher.ts : makeHashCache -/

/-- The recency-set capacity constant HASH_CACHE_SIZE. -/
def HASH_CACHE_SIZE : Nat := 1000

/-- The state of a makeHashCache instance: the bounded deque of hashes in
insertion order, plus the mirror membership set.  A JavaScript Set also
iterates in insertion order, so it is modelled as a duplicate-free list. -/
structure HashCache where
  deque : List String
  set : List String
deriving DecidableEq, Repr

/-- Set.prototype.add: append if absent. -/
def jsSetAdd (s : List String) (h : String) : List String :=
  if h ∈ s then s else s ++ [h]

/-- Set.prototype.delete: remove the (unique) occurrence. -/
def jsSetDelete (s : List String) (h : String) : List String := s.erase h

/-- The empty cache makeHashCache starts from. -/
def emptyHashCache : HashCache := { deque := [], set := [] }

/-- seen(hash) of makeHashCache: false on a falsy hash; true (and no
mutation) on a known hash; otherwise admit the hash and, past capacity,
shift the oldest entry out of the deque and delete it from the set. -/
def seen (c : HashCache) (hash : Option String) : Bool × HashCache :=
  if ¬ strTruthy hash then (false, c)
  else
    let h := hash.getD ""
    if h ∈ c.set then (true, c)
    else
      let deque := c.deque ++ [h]
      let set := jsSetAdd c.set h
      if HASH_CACHE_SIZE < deque.length then
        match deque with
        | [] => (false, { deque := deque, set := set })
        | oldest :: rest =>
          (false,
           { deque := rest
             set := if oldest = "" then set else jsSetDelete set oldest })
      else (false, { deque := deque, set := set })

/-- Feed a list of hashes to seen, keeping only the final state. -/
def seenAll (c : HashCache) (hs : List String) : HashCache :=
  hs.foldl (fun c h => (seen c (some h)).2) c

/-! ## src/gamma/cache.ts : createTtlCache -/

/-- One stored entry of the TTL cache. -/
structure CacheEntry (T : Type) where
  value : T
  expiresAt : Int
deriving DecidableEq, Repr

/-- The state of a createTtlCache instance: the store map and the
in-flight map.  Maps with unique string keys are association lists; an
in-flight promise is modelled by its settled outcome. -/
structure TtlCache (T : Type) where
  store : List (String × CacheEntry T)
  inflight : List (String × Except String T)

/-- Map.prototype.get. -/
def lookupKey {α : Type} : List (String × α) → String → Option α
  | [], _ => none
  | (k, v) :: rest, key => if k = key then some v else lookupKey rest key

/-- Map.prototype.delete (keys are unique, so drop every match). -/
def deleteKey {α : Type} (l : List (String × α)) (key : String) :
    List (String × α) :=
  l.filter fun p => p.1 ≠ key

/-- Map.prototype.set. -/
def setKey {α : Type} (l : List (String × α)) (key : String) (v : α) :
    List (String × α) :=
  deleteKey l key ++ [(key, v)]

/-- get of createTtlCache: a missing entry is absent; an entry at or past
its expiry is deleted and reported absent; otherwise the value. -/
def cacheGet {T : Type} (c : TtlCache T) (key : String) (now : Int) :
    Option T × TtlCache T :=
  match lookupKey c.store key with
  | none => (none, c)
  | some entry =>
    if entry.expiresAt ≤ now then
      (none, { c with store := deleteKey c.store key })
    else (some entry.value, c)

/-- set of createTtlCache: expiresAt = Date.now() + max(0, ttlMs). -/
def cacheSet {T : Type} (c : TtlCache T) (key : String) (value : T)
    (ttlMs now : Int) : TtlCache T :=
  { c with store := setKey c.store key ⟨value, now + max 0 ttlMs⟩ }

/-- getOrSet of createTtlCache.  The producer argument is the settled
outcome of the producer promise, and the async window is collapsed: the
promise is registered in flight and, on settlement, removes itself and on
success stores the value (on failure it removes the marker and rethrows).
The Bool output records whether the producer was invoked. -/
def getOrSet {T : Type} (c : TtlCache T) (key : String) (ttlMs : Int)
    (producer : Except String T) (now : Int) :
    Except String T × Bool × TtlCache T :=
  match cacheGet c key now with
  | (some v, c1) => (Except.ok v, false, c1)
  | (none, c1) =>
    match lookupKey c1.inflight key with
    | some pending => (pending, false, c1)
    | none =>
      match producer with
      | Except.ok v =>
        (Except.ok v, true,
          cacheSet
            { c1 with
              inflight := deleteKey (setKey c1.inflight key (Except.ok v)) key }
            key v ttlMs now)
      | Except.error e =>
        (Except.error e, true,
          { c1 with
            inflight :=
              deleteKey (setKey c1.inflight key (Except.error e)) key })

/-! ## src/copy/placer.ts -/

/-- The venue order-type enum. -/
inductive OrderTypeT | FOK | GTC | GTD | FAK
deriving DecidableEq, Repr

/-- toOrderType of placer.ts (default FAK). -/
def toOrderType (value : String) : OrderTypeT :=
  if value = "FOK" then OrderTypeT.FOK
  else if value = "GTC" then OrderTypeT.GTC
  else if value = "GTD" then OrderTypeT.GTD
  else OrderTypeT.FAK

/-- roundToDecimals of placer.ts: Math.round(value * 10^d) / 10^d, with
Math.round(x) = floor(x + 1/2) on the rational model. -/
def roundToDecimals (value : ℚ) (decimals : Nat) : ℚ :=
  let factor : ℚ := 10 ^ decimals
  (⌊value * factor + 1/2⌋ : ℚ) / factor

/-- The placer configuration fields createCopyPlacer reads. -/
structure PlacerConfig where
  privateKey : Option String
  clobApiKey : Option String
  clobApiSecret : Option String
  clobApiPassphrase : Option String
  copySimulateOnly : Bool
  copyOrderType : String

/-- hasCreds of createCopyPlacer: a signer exists iff privateKey is
truthy, and the creds object exists with truthy fields iff all three API
fields are truthy. -/
def hasCreds (cfg : PlacerConfig) : Bool :=
  strTruthy cfg.privateKey && strTruthy cfg.clobApiKey
    && strTruthy cfg.clobApiSecret && strTruthy cfg.clobApiPassphrase

/-- enabled of createCopyPlacer. -/
def placerEnabled (cfg : PlacerConfig) : Bool :=
  !cfg.copySimulateOnly && hasCreds cfg

/-- A venue submission receipt; orderHash is res?.orderId. -/
structure Receipt where
  orderId : Option String
deriving DecidableEq, Repr

/-- The venue transport (clob client): order creation and submission,
each of which may fail with an error whose String(err) rendering is the
carried string.  O is the opaque signed-order type. -/
structure Venue (O : Type) where
  createMarketOrder : String → ℚ → Side → ℚ → Except String O
  createOrder : String → ℚ → ℚ → Side → Except String O
  postOrder : O → OrderTypeT → Except String Receipt

/-- PlaceResult of placer.ts. -/
inductive PlaceResult
  | simulated (intent : CopyIntent)
  | posted (intent : CopyIntent) (orderHash : Option String)
  | skipped (intent : CopyIntent) (reason : String)
deriving DecidableEq, Repr

/-- place of createCopyPlacer.  The try/catch around the venue calls is
the propagation of the Except values into skipped results; nothing
escapes as an exception. -/
def place {O : Type} (cfg : PlacerConfig) (venue : Venue O)
    (intent : CopyIntent) : PlaceResult :=
  if ¬ placerEnabled cfg then PlaceResult.simulated intent
  else
    let orderType := toOrderType cfg.copyOrderType
    let isMarket := orderType = OrderTypeT.FOK ∨ orderType = OrderTypeT.FAK
    if isMarket then
      if intent.side = Side.BUY then
        let amount := roundToDecimals intent.notional 2
        if amount ≤ 0 then PlaceResult.skipped intent "amount rounded to zero"
        else
          match venue.createMarketOrder intent.tokenId amount intent.side
              intent.price with
          | Except.error e => PlaceResult.skipped intent e
          | Except.ok order =>
            match venue.postOrder order orderType with
            | Except.error e => PlaceResult.skipped intent e
            | Except.ok res => PlaceResult.posted intent res.orderId
      else
        let amount := roundToDecimals intent.size 4
        if amount ≤ 0 then PlaceResult.skipped intent "amount rounded to zero"
        else
          match venue.createMarketOrder intent.tokenId amount intent.side
              intent.price with
          | Except.error e => PlaceResult.skipped intent e
          | Except.ok order =>
            match venue.postOrder order orderType with
            | Except.error e => PlaceResult.skipped intent e
            | Except.ok res => PlaceResult.posted intent res.orderId
    else
      let price := roundToDecimals intent.price 4
      let size := roundToDecimals intent.size 4
      if price ≤ 0 ∨ size ≤ 0 then
        PlaceResult.skipped intent "price/size rounded to zero"
      else
        match venue.createOrder intent.tokenId price size intent.side with
        | Except.error e => PlaceResult.skipped intent e
        | Except.ok order =>
          match venue.postOrder order orderType with
          | Except.error e => PlaceResult.skipped intent e
          | Except.ok res => PlaceResult.posted intent res.orderId

/-! ## Helper lemmas: concrete scale floors -/

/-- Math.floor(0.1 * SCALE) = 100000. -/
theorem scaleMicros_tenth : ⌊((1 : ℚ)/10) * ((SCALE : Int) : ℚ)⌋ = 100000 := by
  have h : ((1 : ℚ)/10) * ((SCALE : Int) : ℚ) = ((100000 : Int) : ℚ) := by
    norm_num [SCALE]
  rw [h, Int.floor_intCast]

/-- Math.floor(0.0001 * SCALE) = 100. -/
theorem scaleMicros_tenthousandth :
    ⌊((1 : ℚ)/10000) * ((SCALE : Int) : ℚ)⌋ = 100 := by
  have h : ((1 : ℚ)/10000) * ((SCALE : Int) : ℚ) = ((100 : Int) : ℚ) := by
    norm_num [SCALE]
  rw [h, Int.floor_intCast]

/-- Math.floor(1 * SCALE) = 1000000. -/
theorem scaleMicros_one : ⌊(1 : ℚ) * ((SCALE : Int) : ℚ)⌋ = 1000000 := by
  have h : (1 : ℚ) * ((SCALE : Int) : ℚ) = ((1000000 : Int) : ℚ) := by
    norm_num [SCALE]
  rw [h, Int.floor_intCast]

/-! ## Claim C1 -/

/-- The fill of the spec's buildIntent example, taken with the literal
digit strings of the claim. -/
def fillExample : CopyFill :=
  { hash := none, tokenId := "token", side := FillSide.BUY
    shares := some "1000", usdc := some "500" }

/-- The same fill with the amounts written in the decoder's raw 6-decimal
integer units, so that the displayed values are shares=1000, usdc=500. -/
def fillExampleMicro : CopyFill :=
  { hash := none, tokenId := "token", side := FillSide.BUY
    shares := some "1000000000", usdc := some "500000000" }

/-- The config of the spec's buildIntent example. -/
def cfgExample : CopyConfig :=
  { scale := 1/10, slippageBps := 500, allowBuy := true, allowSell := true }

/-- C1 (counterexample): on the literal fill shares="1000", usdc="500"
with scale=0.1 and slippageBps=500, buildCopyIntent returns an intent
whose size is 0.0001, not the claimed 100 (the raw amounts are 6-decimal
fixed-point integers, so 1000 raw units scaled by 0.1 display as
100/10^6). -/
theorem buildCopyIntent_example_size_not_100 :
    (buildCopyIntent fillExample cfgExample).map CopyIntent.size =
      some (1/10000) ∧ ((1 : ℚ)/10000) ≠ 100 := by
  constructor
  · have hle : ¬ (cfgExample.scale ≤ 0) := by norm_num [cfgExample]
    rw [buildCopyIntent, if_neg hle]
    rw [show cfgExample.scale = (1 : ℚ)/10 from rfl, scaleMicros_tenth]
    rw [show buildCopyMicros fillExample 100000 cfgExample.slippageBps
          cfgExample.allowBuy cfgExample.allowSell =
          some (100, 50, 500000, 525000) from by decide]
    norm_num [SCALE, fillExample]
  · norm_num

/-- C1 (amended): on the example fill expressed in raw 6-decimal integer
units (shares="1000000000", usdc="500000000", i.e. 1000 shares and 500
USDC), scale=0.1, slippageBps=500 and buying enabled, buildCopyIntent
returns size=100, impliedPrice=0.5, limitPrice=0.525, notional=50. -/
theorem buildCopyIntent_example_eval :
    buildCopyIntent fillExampleMicro cfgExample =
      some { tokenId := "token", side := Side.BUY, size := 100,
             price := 525/1000, impliedPrice := 1/2, notional := 50,
             hash := none } := by
  have hle : ¬ (cfgExample.scale ≤ 0) := by norm_num [cfgExample]
  rw [buildCopyIntent, if_neg hle]
  rw [show cfgExample.scale = (1 : ℚ)/10 from rfl, scaleMicros_tenth]
  rw [show buildCopyMicros fillExampleMicro 100000 cfgExample.slippageBps
        cfgExample.allowBuy cfgExample.allowSell =
        some (100000000, 50000000, 500000, 525000) from by decide]
  norm_num [SCALE, fillExampleMicro, CopyIntent.mk.injEq]
  intro h
  exact FillSide.noConfusion h

/-! ## Claim C4 -/

/-- Every individual precondition failure makes the integer core of
buildCopyIntent return none. -/
theorem buildCopyMicros_none (fill : CopyFill) (sm bps : Int)
    (ab asell : Bool)
    (h : (fill.side = FillSide.BUY ∧ ab = false)
      ∨ (fill.side = FillSide.SELL ∧ asell = false)
      ∨ (∀ n : Int, toBigInt fill.shares = some n → n ≤ 0)
      ∨ (∀ n : Int, toBigInt fill.usdc = some n → n ≤ 0)
      ∨ (∃ n m : Int, toBigInt fill.shares = some n ∧ toBigInt fill.usdc = some m
          ∧ (jsDiv (n * sm) SCALE ≤ 0 ∨ jsDiv (m * sm) SCALE ≤ 0))) :
    buildCopyMicros fill sm bps ab asell = none := by
  unfold buildCopyMicros
  rcases h with ⟨hs, hb⟩ | ⟨hs, hb⟩ | h | h | ⟨n, m, hn, hm, hsc⟩
  · subst hb
    simp [hs]
  · subst hb
    simp [hs]
  · split
    · rfl
    split
    · rfl
    rcases hsh : toBigInt fill.shares with _ | n
    · simp [hsh]
    rcases hus : toBigInt fill.usdc with _ | m
    · simp [hsh, hus]
    have hn := h n hsh
    simp [hsh, hus, hn]
  · split
    · rfl
    split
    · rfl
    rcases hsh : toBigInt fill.shares with _ | n
    · simp [hsh]
    rcases hus : toBigInt fill.usdc with _ | m
    · simp [hsh, hus]
    have hm := h m hus
    simp [hsh, hus, hm]
  · split
    · rfl
    split
    · rfl
    simp only [hn, hm]
    by_cases hz : n ≤ 0 ∨ m ≤ 0
    · simp [hz]
    simp only [if_neg hz]
    simp [hsc]

/-- C4: buildCopyIntent returns null whenever any precondition fails:
nonpositive scale; BUY with buying disabled; SELL with selling disabled;
shares or usdc missing or not parsing as a positive integer; or either
scaled amount flooring to a nonpositive value — and in particular any
config with scale=0.0001 on a fill with shares="1" always yields null. -/
theorem buildCopyIntent_precondition_none :
    (∀ (fill : CopyFill) (config : CopyConfig),
      (config.scale ≤ 0
        ∨ (fill.side = FillSide.BUY ∧ config.allowBuy = false)
        ∨ (fill.side = FillSide.SELL ∧ config.allowSell = false)
        ∨ (∀ n : Int, toBigInt fill.shares = some n → n ≤ 0)
        ∨ (∀ n : Int, toBigInt fill.usdc = some n → n ≤ 0)
        ∨ (∃ n m : Int, toBigInt fill.shares = some n ∧ toBigInt fill.usdc = some m
            ∧ (applyScale n config.scale ≤ 0 ∨ applyScale m config.scale ≤ 0))) →
      buildCopyIntent fill config = none)
    ∧ (∀ (config : CopyConfig), config.scale = 1/10000 →
        ∀ (hash usdcStr : Option String) (tokenId : String),
        buildCopyIntent
          { hash := hash, tokenId := tokenId, side := FillSide.BUY
            shares := some "1", usdc := usdcStr } config = none) := by
  constructor
  · intro fill config h
    by_cases hs : config.scale ≤ 0
    · rw [buildCopyIntent, if_pos hs]
    rcases h with h | h
    · exact absurd h hs
    rw [buildCopyIntent, if_neg hs]
    have hnone : buildCopyMicros fill ⌊config.scale * (SCALE : ℚ)⌋
        config.slippageBps config.allowBuy config.allowSell = none := by
      apply buildCopyMicros_none
      rcases h with h | h | h | h | ⟨n, m, hn, hm, hsc⟩
      · exact Or.inl h
      · exact Or.inr (Or.inl h)
      · exact Or.inr (Or.inr (Or.inl h))
      · exact Or.inr (Or.inr (Or.inr (Or.inl h)))
      · exact Or.inr (Or.inr (Or.inr (Or.inr ⟨n, m, hn, hm, hsc⟩)))
    rw [hnone, Option.map_none']
  · intro config hsc hash usdcStr tokenId
    by_cases hs : config.scale ≤ 0
    · rw [buildCopyIntent, if_pos hs]
    rw [buildCopyIntent, if_neg hs, hsc, scaleMicros_tenthousandth]
    have hnone : buildCopyMicros
        { hash := hash, tokenId := tokenId, side := FillSide.BUY
          shares := some "1", usdc := usdcStr } 100
        config.slippageBps config.allowBuy config.allowSell = none := by
      apply buildCopyMicros_none
      rcases hus : toBigInt usdcStr with _ | m
      · refine Or.inr (Or.inr (Or.inr (Or.inl fun n hn => ?_)))
        cases hn
      by_cases hm : m ≤ 0
      · refine Or.inr (Or.inr (Or.inr (Or.inl fun n hn => ?_)))
        injection hn with hnm
        exact hnm ▸ hm
      refine Or.inr (Or.inr (Or.inr (Or.inr
        ⟨1, m, show toBigInt (some "1") = some 1 from by decide, rfl,
          Or.inl (show jsDiv (1 * 100) SCALE ≤ 0 from by decide)⟩)))
    rw [hnone, Option.map_none']

/-- C4 witness: a BUY fill with buying disabled yields null, and a fill
with shares="1" under scale=0.0001 yields null. -/
theorem buildCopyIntent_precondition_none_witness :
    buildCopyIntent
      { hash := none, tokenId := "token", side := FillSide.BUY
        shares := some "5", usdc := some "5" }
      { scale := 1/2, slippageBps := 0, allowBuy := false, allowSell := true }
      = none
    ∧ buildCopyIntent
      { hash := none, tokenId := "token", side := FillSide.BUY
        shares := some "1", usdc := some "7" }
      { scale := 1/10000, slippageBps := 500, allowBuy := true, allowSell := true }
      = none :=
  ⟨buildCopyIntent_precondition_none.1 _ _ (Or.inr (Or.inl ⟨rfl, rfl⟩)),
   buildCopyIntent_precondition_none.2
     { scale := 1/10000, slippageBps := 500, allowBuy := true, allowSell := true }
     rfl none (some "7") "token"⟩

/-! ## Claim C9 -/

/-- The fill and config exhibiting the UNKNOWN-side null return: the
implied price (1 USDC micro against 10^7 share micros) floors to zero. -/
def fillUnknownTiny : CopyFill :=
  { hash := none, tokenId := "token", side := FillSide.UNKNOWN
    shares := some "10000000", usdc := some "1" }

/-- Config with scale 1 and both sides disabled. -/
def cfgScaleOne : CopyConfig :=
  { scale := 1, slippageBps := 0, allowBuy := false, allowSell := false }

/-- C9 (counterexample): a fill with side UNKNOWN that passes every
precondition the claim lists (positive parsed shares and usdc, positive
scale, positive scaled amounts) on which buildCopyIntent nevertheless
returns null, because the implied price floors to zero and the
limitMicros ≤ 0 guard fires. -/
theorem buildCopyIntent_unknown_null :
    toBigInt fillUnknownTiny.shares = some 10000000
    ∧ toBigInt fillUnknownTiny.usdc = some 1
    ∧ (0 : ℚ) < cfgScaleOne.scale
    ∧ 0 < applyScale 10000000 cfgScaleOne.scale
    ∧ 0 < applyScale 1 cfgScaleOne.scale
    ∧ buildCopyIntent fillUnknownTiny cfgScaleOne = none := by
  refine ⟨by decide, by decide, by norm_num [cfgScaleOne], ?_, ?_, ?_⟩
  · rw [applyScale_eq, show cfgScaleOne.scale = (1 : ℚ) from rfl, scaleMicros_one]
    decide
  · rw [applyScale_eq, show cfgScaleOne.scale = (1 : ℚ) from rfl, scaleMicros_one]
    decide
  · have hs : ¬ (cfgScaleOne.scale ≤ 0) := by norm_num [cfgScaleOne]
    rw [buildCopyIntent, if_neg hs,
      show cfgScaleOne.scale = (1 : ℚ) from rfl, scaleMicros_one]
    rw [show buildCopyMicros fillUnknownTiny 1000000 cfgScaleOne.slippageBps
          cfgScaleOne.allowBuy cfgScaleOne.allowSell = none from by decide]
    rfl

/-- C9 (amended): for every fill with side UNKNOWN whose shares and usdc
parse as positive integers, whose scaled amounts are positive and whose
implied price floor(usdc*SCALE/shares) is positive, buildCopyIntent does
not return null: it returns an intent with side BUY whose limit price
equals the implied price unchanged, regardless of the allowBuy/allowSell
flags. -/
theorem buildCopyIntent_unknown_side (fill : CopyFill) (config : CopyConfig)
    (hside : fill.side = FillSide.UNKNOWN)
    (hscale : 0 < config.scale)
    (n m : Int)
    (hn : toBigInt fill.shares = some n) (hm : toBigInt fill.usdc = some m)
    (hnpos : 0 < n) (hmpos : 0 < m)
    (hcs : 0 < applyScale n config.scale)
    (hcu : 0 < applyScale m config.scale)
    (hprice : 0 < jsDiv (m * SCALE) n) :
    ∃ i, buildCopyIntent fill config = some i
      ∧ i.side = Side.BUY ∧ i.price = i.impliedPrice := by
  have hs : ¬ (config.scale ≤ 0) := not_le.mpr hscale
  rw [buildCopyIntent, if_neg hs]
  have hcore : buildCopyMicros fill ⌊config.scale * (SCALE : ℚ)⌋
      config.slippageBps config.allowBuy config.allowSell =
      some (applyScale n config.scale, applyScale m config.scale,
        jsDiv (m * SCALE) n, jsDiv (m * SCALE) n) := by
    unfold buildCopyMicros
    rw [if_neg (by simp [hside]), if_neg (by simp [hside])]
    simp only [hn, hm]
    rw [if_neg (by push_neg; exact ⟨hnpos, hmpos⟩)]
    rw [if_neg (by push_neg; exact ⟨hcs, hcu⟩)]
    rw [show applySlippage (jsDiv (m * SCALE) n) config.slippageBps fill.side
          = jsDiv (m * SCALE) n from by rw [hside]; rfl]
    rw [if_neg (not_le.mpr hprice)]
    rfl
  rw [hcore]
  refine ⟨_, rfl, ?_, rfl⟩
  simp [hside]

/-- Concrete UNKNOWN-side fill for the C9 witness. -/
def fillUnknownW : CopyFill :=
  { hash := none, tokenId := "token", side := FillSide.UNKNOWN
    shares := some "10", usdc := some "10" }

/-- Concrete config (scale 1, both sides disabled) for the C9 witness. -/
def cfgUnknownW : CopyConfig :=
  { scale := 1, slippageBps := 500, allowBuy := false, allowSell := false }

/-- C9 witness: the amended theorem applied at a concrete UNKNOWN-side
fill with both sides disabled. -/
theorem buildCopyIntent_unknown_side_witness :
    ∃ i, buildCopyIntent fillUnknownW cfgUnknownW = some i
      ∧ i.side = Side.BUY ∧ i.price = i.impliedPrice :=
  buildCopyIntent_unknown_side fillUnknownW cfgUnknownW rfl
    (by norm_num [cfgUnknownW]) 10 10 (by decide) (by decide)
    (by decide) (by decide)
    (by rw [applyScale_eq, show cfgUnknownW.scale = (1 : ℚ) from rfl,
          scaleMicros_one]; decide)
    (by rw [applyScale_eq, show cfgUnknownW.scale = (1 : ℚ) from rfl,
          scaleMicros_one]; decide)
    (by decide)

/-! ## Claim C2 -/

/-- The per-leg maker contribution as the specification words it: a BUY
leg contributes floor(fill*takerAmount/makerAmount) shares and fill usdc;
a SELL leg contributes fill shares and floor(fill*takerAmount/makerAmount)
usdc.  Floor division is Int.fdiv.  Stated for comparison against
computeMakerFill. -/
def specMakerLeg (order : OrderRec) (fill : Int) : Int × Int :=
  if order.side = some 0 then
    (Int.fdiv (fill * order.takerAmount.getD 0) (order.makerAmount.getD 0), fill)
  else
    (fill, Int.fdiv (fill * order.takerAmount.getD 0) (order.makerAmount.getD 0))

/-- The specification's maker totals: sum the per-leg contributions at
each matching leg's index of the fill list. -/
def specMakerSums (legs : List (Nat × OrderRec)) (fills : List Int) : Int × Int :=
  legs.foldl
    (fun acc p =>
      match fills.get? p.1 with
      | some f => (acc.1 + (specMakerLeg p.2 f).1, acc.2 + (specMakerLeg p.2 f).2)
      | none => acc)
    (0, 0)

/-- On a well-formed leg (positive maker and taker amounts, BUY or SELL
side, nonnegative fill) computeMakerFill computes exactly the
specification's contribution. -/
theorem computeMakerFill_eq_spec (order : OrderRec) (f a t : Int)
    (hma : order.makerAmount = some a) (ha : 0 < a)
    (hta : order.takerAmount = some t) (ht : 0 < t)
    (hf : 0 ≤ f) (hside : order.side = some 0 ∨ order.side = some 1) :
    computeMakerFill order f =
      (some (specMakerLeg order f).1, some (specMakerLeg order f).2) := by
  unfold computeMakerFill specMakerLeg
  rw [hma, hta]
  rw [if_neg (by simp [intTruthy, ne_of_gt ha, ne_of_gt ht])]
  rcases hside with h0 | h1
  · rw [h0]
    simp only [if_pos rfl, Option.getD_some, jsDiv]
    rw [Int.fdiv_eq_tdiv (mul_nonneg hf ht.le) ha.le]
    simp
  · rw [h1]
    have h01 : ¬ ((some 1 : Option Int) = some 0) := by decide
    simp only [if_neg h01, if_pos rfl, Option.getD_some, jsDiv]
    rw [Int.fdiv_eq_tdiv (mul_nonneg hf ht.le) ha.le]
    simp

/-- On well-formed matching legs the MAKER accumulation loop computes the
specification's totals. -/
theorem makerSums_eq_spec (legs : List (Nat × OrderRec)) (fills : List Int)
    (h : ∀ p ∈ legs,
      (∃ a, p.2.makerAmount = some a ∧ 0 < a) ∧
      (∃ t, p.2.takerAmount = some t ∧ 0 < t) ∧
      (p.2.side = some 0 ∨ p.2.side = some 1) ∧
      (∀ f, fills.get? p.1 = some f → 0 ≤ f)) :
    makerSums legs fills = specMakerSums legs fills := by
  unfold makerSums specMakerSums
  apply List.foldl_ext
  intro acc p hp
  obtain ⟨⟨a, hma, ha⟩, ⟨t, hta, ht⟩, hside, hf⟩ := h p hp
  rcases hg : fills.get? p.1 with _ | f
  · rfl
  · simp only [computeMakerFill_eq_spec p.2 f a t hma ha hta ht (hf f hg) hside]

/-- C2 (amended): whenever the role is MAKER, computeFillForTarget
reports as shares/usdc exactly the specification sums taken over the
maker legs whose maker-field or signer-field equals the target
(case-insensitively), under the guard that a positive total is rendered
as a decimal string and a nonpositive total is left undefined. -/
theorem computeFillForTarget_maker_sums (d : MatchDecoded)
    (targetAddress : String) (args : MatchArgs)
    (hargs : d.args = some args) (hfn : d.functionName = "matchOrders")
    (hnt : lowerFieldEq args.takerOrder.maker (lowerStr targetAddress) = false)
    (hns : lowerFieldEq args.takerOrder.signer (lowerStr targetAddress) = false)
    (hne : makerMatchesOf args.makerOrders (lowerStr targetAddress) ≠ [])
    (hlegs : ∀ p ∈ makerMatchesOf args.makerOrders (lowerStr targetAddress),
      (∃ a, p.2.makerAmount = some a ∧ 0 < a) ∧
      (∃ t, p.2.takerAmount = some t ∧ 0 < t) ∧
      (p.2.side = some 0 ∨ p.2.side = some 1) ∧
      (∀ f, args.makerFillAmounts.get? p.1 = some f → 0 ≤ f)) :
    ∃ fb, computeFillForTarget (some d) targetAddress = some fb
      ∧ fb.role = Role.MAKER
      ∧ fb.shares =
          (if 0 < (specMakerSums
                (makerMatchesOf args.makerOrders (lowerStr targetAddress))
                args.makerFillAmounts).1
            then some (toString (specMakerSums
                (makerMatchesOf args.makerOrders (lowerStr targetAddress))
                args.makerFillAmounts).1)
            else none)
      ∧ fb.usdc =
          (if 0 < (specMakerSums
                (makerMatchesOf args.makerOrders (lowerStr targetAddress))
                args.makerFillAmounts).2
            then some (toString (specMakerSums
                (makerMatchesOf args.makerOrders (lowerStr targetAddress))
                args.makerFillAmounts).2)
            else none) := by
  obtain ⟨fn, oargs⟩ := d
  simp only at hargs hfn
  subst hargs hfn
  refine ⟨_, rfl, ?_, ?_, ?_⟩
  · simp only [computeFillForTarget]
    simp [hnt, hns, hne]
  · simp only [computeFillForTarget]
    simp only [ne_eq, ite_not, Option.map_some', Option.getD_some,
      Option.some_bind, hnt, hns, Bool.or_self, Bool.false_eq_true, if_false,
      if_true, hne, ite_true, ite_false]
    rw [makerSums_eq_spec _ _ hlegs]
    simp [apply_ite (Option.map toString)]
  · simp only [computeFillForTarget]
    simp only [ne_eq, ite_not, Option.map_some', Option.getD_some,
      Option.some_bind, hnt, hns, Bool.or_self, Bool.false_eq_true, if_false,
      if_true, hne, ite_true, ite_false]
    rw [makerSums_eq_spec _ _ hlegs]
    simp [apply_ite (Option.map toString)]

/-- A maker leg whose signer, but not maker, is the watched address. -/
def makerLegSigner : OrderRec :=
  { maker := some "0xbbbb", signer := some "0xaaaa", side := some 1
    makerAmount := some 1000, takerAmount := some 300 }

/-- A decoded call whose only maker leg matches by signer alone. -/
def decodedSignerOnly : MatchDecoded :=
  { functionName := "matchOrders"
    args := some
      { takerOrder := {}, makerOrders := [makerLegSigner]
        takerFillAmount := some 0, takerReceiveAmount := some 0
        makerFillAmounts := [500] } }

/-- C2 (counterexample): the role is MAKER and the full fill 500/150 is
attributed to the target although no maker leg's maker-field equals the
target — the filter also accepts a matching signer-field, so the sum is
not taken over the maker-field matches alone. -/
theorem computeFillForTarget_signer_leg_counted :
    computeFillForTarget (some decodedSignerOnly) "0xAAAA" =
      some { role := Role.MAKER, side := SideTag.UNKNOWN, tokenId := none
             shares := some "500", usdc := some "150" }
    ∧ ([makerLegSigner].enum.filter
        fun p => lowerFieldEq p.2.maker (lowerStr "0xAAAA")) = [] := by
  constructor
  · decide
  · decide

/-- The single maker-field SELL leg of the spec's worked example. -/
def makerLegSell : OrderRec :=
  { maker := some "0xaaaa", side := some 1
    makerAmount := some 1000, takerAmount := some 300 }

/-- The argument tuple of the worked example. -/
def argsMakerSell : MatchArgs :=
  { takerOrder := {}, makerOrders := [makerLegSell]
    takerFillAmount := some 0, takerReceiveAmount := some 0
    makerFillAmounts := [500] }

/-- The decoded call of the worked example. -/
def decodedMakerSell : MatchDecoded :=
  { functionName := "matchOrders", args := some argsMakerSell }

/-- C2 witness: the amended theorem at the spec's worked example — a
single matching SELL leg with makerAmount=1000, takerAmount=300, fill=500
yields shares="500" and usdc="150". -/
theorem computeFillForTarget_maker_sums_witness :
    ∃ fb, computeFillForTarget (some decodedMakerSell) "0xAAAA" = some fb
      ∧ fb.role = Role.MAKER ∧ fb.shares = some "500" ∧ fb.usdc = some "150" := by
  have hlegs : ∀ p ∈ makerMatchesOf argsMakerSell.makerOrders (lowerStr "0xAAAA"),
      (∃ a, p.2.makerAmount = some a ∧ 0 < a) ∧
      (∃ t, p.2.takerAmount = some t ∧ 0 < t) ∧
      (p.2.side = some 0 ∨ p.2.side = some 1) ∧
      (∀ f, argsMakerSell.makerFillAmounts.get? p.1 = some f → 0 ≤ f) := by
    intro p hp
    have hm : makerMatchesOf argsMakerSell.makerOrders (lowerStr "0xAAAA")
        = [(0, makerLegSell)] := by decide
    rw [hm] at hp
    have hp' : p = (0, makerLegSell) := by simpa using hp
    subst hp'
    refine ⟨⟨1000, rfl, by decide⟩, ⟨300, rfl, by decide⟩, Or.inr rfl, ?_⟩
    intro f hf
    have : f = 500 := by
      have := hf
      simp [argsMakerSell] at this
      omega
    subst this
    decide
  obtain ⟨fb, heq, hrole, hsh, hus⟩ :=
    computeFillForTarget_maker_sums decodedMakerSell "0xAAAA" argsMakerSell
      rfl rfl (by decide) (by decide) (by decide) hlegs
  refine ⟨fb, heq, hrole, ?_, ?_⟩
  · rw [hsh]
    decide
  · rw [hus]
    decide

/-! ## Claim C3 -/

/-- C3 (amended): when the target is the taker, computeFillForTarget
returns role TAKER; on a BUY taker leg the usdc output is the
takerFillAmount rendered verbatim and the shares output is the
takerReceiveAmount when present; when the receive amount is absent the
shares are the floor of takerFillAmount*takerAmount/makerAmount
(multiply-before-divide) provided all three operands are present and
nonzero, and undefined when any of them is missing or zero.  On a SELL
leg the assignment is the symmetric swap. -/
theorem computeFillForTarget_taker_fill (d : MatchDecoded)
    (targetAddress : String) (args : MatchArgs)
    (hargs : d.args = some args) (hfn : d.functionName = "matchOrders")
    (ht : lowerFieldEq args.takerOrder.maker (lowerStr targetAddress) = true
      ∨ lowerFieldEq args.takerOrder.signer (lowerStr targetAddress) = true) :
    ∃ fb, computeFillForTarget (some d) targetAddress = some fb
      ∧ fb.role = Role.TAKER
      ∧ (args.takerOrder.side = some 0 →
          fb.usdc = args.takerFillAmount.map toString
          ∧ (∀ r, args.takerReceiveAmount = some r →
              fb.shares = some (toString r))
          ∧ (args.takerReceiveAmount = none →
              ∀ f a t, args.takerFillAmount = some f → 0 < f →
                args.takerOrder.makerAmount = some a → 0 < a →
                args.takerOrder.takerAmount = some t → 0 < t →
                fb.shares = some (toString (Int.fdiv (f * t) a)))
          ∧ (args.takerReceiveAmount = none →
              (intTruthy args.takerFillAmount = false
                ∨ intTruthy args.takerOrder.makerAmount = false
                ∨ intTruthy args.takerOrder.takerAmount = false) →
              fb.shares = none))
      ∧ (args.takerOrder.side = some 1 →
          fb.shares = args.takerFillAmount.map toString
          ∧ (∀ r, args.takerReceiveAmount = some r →
              fb.usdc = some (toString r))
          ∧ (args.takerReceiveAmount = none →
              ∀ f a t, args.takerFillAmount = some f → 0 < f →
                args.takerOrder.makerAmount = some a → 0 < a →
                args.takerOrder.takerAmount = some t → 0 < t →
                fb.usdc = some (toString (Int.fdiv (f * t) a)))
          ∧ (args.takerReceiveAmount = none →
              (intTruthy args.takerFillAmount = false
                ∨ intTruthy args.takerOrder.makerAmount = false
                ∨ intTruthy args.takerOrder.takerAmount = false) →
              fb.usdc = none)) := by
  obtain ⟨fn, oargs⟩ := d
  simp only at hargs hfn
  subst hargs hfn
  have htr : (lowerFieldEq args.takerOrder.maker (lowerStr targetAddress)
      || lowerFieldEq args.takerOrder.signer (lowerStr targetAddress)) = true := by
    rcases ht with h | h
    · simp [h]
    · simp [h]
  have hderived : ∀ f a t : Int, args.takerFillAmount = some f → 0 < f →
      args.takerOrder.makerAmount = some a → 0 < a →
      args.takerOrder.takerAmount = some t → 0 < t →
      (if intTruthy args.takerFillAmount
          ∧ intTruthy args.takerOrder.makerAmount
          ∧ intTruthy args.takerOrder.takerAmount then
        some (jsDiv (args.takerFillAmount.getD 0
          * args.takerOrder.takerAmount.getD 0)
          (args.takerOrder.makerAmount.getD 0))
       else none) = some (Int.fdiv (f * t) a) := by
    intro f a t hf hfpos ha hapos htk htkpos
    rw [hf, ha, htk]
    rw [if_pos (by simp [intTruthy, ne_of_gt hfpos, ne_of_gt hapos,
      ne_of_gt htkpos])]
    simp only [Option.getD_some, jsDiv]
    rw [Int.fdiv_eq_tdiv (mul_nonneg hfpos.le htkpos.le) hapos.le]
  refine ⟨_, rfl, ?_, ?_, ?_⟩
  · simp only [computeFillForTarget]
    simp [htr]
  · intro hside
    refine ⟨?_, ?_, ?_, ?_⟩
    · simp only [computeFillForTarget]
      simp [htr, takerBranch, hside]
    · intro r hr
      simp only [computeFillForTarget]
      simp [htr, takerBranch, hside, hr]
    · intro hrec f a t hf hfpos ha hapos htk htkpos
      have hd := hderived f a t hf hfpos ha hapos htk htkpos
      simp only [computeFillForTarget]
      simp [htr, takerBranch, hside, hrec, hd]
    · intro hrec hfalsy
      have hcond : ¬ (intTruthy args.takerFillAmount
          ∧ intTruthy args.takerOrder.makerAmount
          ∧ intTruthy args.takerOrder.takerAmount) := by
        rcases hfalsy with h | h | h <;> simp [h]
      simp only [computeFillForTarget]
      simp [htr, takerBranch, hside, hrec, hcond]
  · intro hside
    have hs01 : args.takerOrder.side ≠ some 0 := by
      rw [hside]
      decide
    refine ⟨?_, ?_, ?_, ?_⟩
    · simp only [computeFillForTarget]
      simp [htr, takerBranch, hside, hs01]
    · intro r hr
      simp only [computeFillForTarget]
      simp [htr, takerBranch, hside, hs01, hr]
    · intro hrec f a t hf hfpos ha hapos htk htkpos
      have hd := hderived f a t hf hfpos ha hapos htk htkpos
      simp only [computeFillForTarget]
      simp [htr, takerBranch, hside, hs01, hrec, hd]
    · intro hrec hfalsy
      have hcond : ¬ (intTruthy args.takerFillAmount
          ∧ intTruthy args.takerOrder.makerAmount
          ∧ intTruthy args.takerOrder.takerAmount) := by
        rcases hfalsy with h | h | h <;> simp [h]
      simp only [computeFillForTarget]
      simp [htr, takerBranch, hside, hs01, hrec, hcond]

/-- The taker order of the zero-fill counterexample: side BUY,
makerAmount 2, takerAmount 3, maker = the watched address. -/
def takerOrderZero : OrderRec :=
  { maker := some "0xcccc", side := some 0
    makerAmount := some 2, takerAmount := some 3 }

/-- A decoded call whose taker (the target) has side BUY, a zero
takerFillAmount and no takerReceiveAmount. -/
def decodedTakerZeroFill : MatchDecoded :=
  { functionName := "matchOrders"
    args := some
      { takerOrder := takerOrderZero
        makerOrders := [], takerFillAmount := some 0
        takerReceiveAmount := none, makerFillAmounts := [] } }

/-- C3 (counterexample): with the receive amount absent and
takerFillAmount = 0, the claimed derivation floor(0*3/2) = 0 would give
shares "0", but the source's truthiness guard leaves shares undefined
(usdc is still "0"). -/
theorem computeFillForTarget_taker_zero_fill :
    computeFillForTarget (some decodedTakerZeroFill) "0xCCCC" =
      some { role := Role.TAKER, side := SideTag.BUY, tokenId := none
             shares := none, usdc := some "0" }
    ∧ toString (Int.fdiv (0 * 3) 2) = "0" := by
  constructor
  · decide
  · decide

/-- The taker order of the spec's TAKER BUY example. -/
def takerOrderBuy : OrderRec :=
  { maker := some "0xcccc", side := some 0
    makerAmount := some 7, takerAmount := some 9 }

/-- The argument tuple of the spec's TAKER BUY example. -/
def argsTakerBuy : MatchArgs :=
  { takerOrder := takerOrderBuy
    makerOrders := [], takerFillAmount := some 100
    takerReceiveAmount := some 500, makerFillAmounts := [] }

/-- The decoded call of the spec's TAKER BUY example. -/
def decodedTakerBuy : MatchDecoded :=
  { functionName := "matchOrders", args := some argsTakerBuy }

/-- C3 witness: the amended theorem at the spec's example — a TAKER BUY
leg with takerFillAmount=100 and takerReceiveAmount=500 yields
usdc="100" and shares="500" string-exact. -/
theorem computeFillForTarget_taker_fill_witness :
    ∃ fb, computeFillForTarget (some decodedTakerBuy) "0xCCCC" = some fb
      ∧ fb.role = Role.TAKER ∧ fb.usdc = some "100" ∧ fb.shares = some "500" := by
  obtain ⟨fb, heq, hrole, hbuy, _⟩ :=
    computeFillForTarget_taker_fill decodedTakerBuy "0xCCCC" argsTakerBuy
      rfl rfl (Or.inl (by decide))
  obtain ⟨husdc, hrec, _, _⟩ := hbuy (by decide)
  refine ⟨fb, heq, hrole, ?_, ?_⟩
  · rw [husdc]
    decide
  · rw [hrec 500 (by decide)]
    decide

/-! ## Claim C10 -/

/-- A zero fill contributes zero to both accumulators, whatever the leg
looks like. -/
theorem computeMakerFill_zero (order : OrderRec) :
    (match (computeMakerFill order 0).1 with | some s => s | none => 0) = 0
    ∧ (match (computeMakerFill order 0).2 with | some u => u | none => 0) = 0 := by
  unfold computeMakerFill
  by_cases hg : ¬ intTruthy order.makerAmount ∨ ¬ intTruthy order.takerAmount
  · rw [if_pos hg]
    constructor
    · by_cases h1 : order.side = some 1
      · simp [h1]
      · simp [h1]
    · by_cases h0 : order.side = some 0
      · simp [h0]
      · simp [h0]
  · rw [if_neg hg]
    by_cases h0 : order.side = some 0
    · simp [h0, jsDiv, Int.zero_tdiv]
    by_cases h1 : order.side = some 1
    · simp [h0, h1, jsDiv, Int.zero_tdiv]
    · simp [h0, h1]

/-- If every in-range fill of the matching legs is zero, the MAKER
accumulation loop totals to (0, 0). -/
theorem makerSums_zero (legs : List (Nat × OrderRec)) (fills : List Int)
    (h : ∀ p ∈ legs, ∀ f, fills.get? p.1 = some f → f = 0) :
    makerSums legs fills = (0, 0) := by
  unfold makerSums
  rw [List.foldl_ext _ (fun acc (_ : Nat × OrderRec) => acc)]
  · induction legs with
    | nil => rfl
    | cons p t ih => exact ih fun q hq => h q (List.mem_cons_of_mem p hq)
  · intro acc p hp
    rcases hg : fills.get? p.1 with _ | f
    · rfl
    · have hf0 := h p hp f hg
      subst hf0
      obtain ⟨h1, h2⟩ := computeMakerFill_zero p.2
      simp only [h1, h2, add_zero]

/-- C10: at the MAKER output a summed total of exactly zero is reported
as an undefined field, not the string "0" — in particular when every
matching leg's makerFillAmounts entry is 0 both fields are undefined, so
a genuine zero fill is indistinguishable from no fill. -/
theorem computeFillForTarget_maker_zero_undefined (d : MatchDecoded)
    (targetAddress : String) (args : MatchArgs)
    (hargs : d.args = some args) (hfn : d.functionName = "matchOrders")
    (hnt : lowerFieldEq args.takerOrder.maker (lowerStr targetAddress) = false)
    (hns : lowerFieldEq args.takerOrder.signer (lowerStr targetAddress) = false)
    (hne : makerMatchesOf args.makerOrders (lowerStr targetAddress) ≠ []) :
    ∃ fb, computeFillForTarget (some d) targetAddress = some fb
      ∧ fb.role = Role.MAKER
      ∧ ((makerSums (makerMatchesOf args.makerOrders (lowerStr targetAddress))
            args.makerFillAmounts).1 = 0 →
          fb.shares = none ∧ fb.shares ≠ some "0")
      ∧ ((makerSums (makerMatchesOf args.makerOrders (lowerStr targetAddress))
            args.makerFillAmounts).2 = 0 →
          fb.usdc = none ∧ fb.usdc ≠ some "0")
      ∧ ((∀ p ∈ makerMatchesOf args.makerOrders (lowerStr targetAddress),
            ∀ f, args.makerFillAmounts.get? p.1 = some f → f = 0) →
          fb.shares = none ∧ fb.usdc = none) := by
  obtain ⟨fn, oargs⟩ := d
  simp only at hargs hfn
  subst hargs hfn
  refine ⟨_, rfl, ?_, ?_, ?_, ?_⟩
  · simp only [computeFillForTarget]
    simp [hnt, hns, hne]
  · intro hz
    simp only [computeFillForTarget]
    simp [hnt, hns, hne, hz]
  · intro hz
    simp only [computeFillForTarget]
    simp [hnt, hns, hne, hz]
  · intro hz
    have hsums := makerSums_zero _ _ hz
    constructor
    · simp only [computeFillForTarget]
      simp [hnt, hns, hne, hsums]
    · simp only [computeFillForTarget]
      simp [hnt, hns, hne, hsums]

/-- The decoded call of the all-zero-fill example: a single matching
maker SELL leg with makerFillAmounts entry 0. -/
def decodedMakerZero : MatchDecoded :=
  { functionName := "matchOrders"
    args := some
      { takerOrder := {}, makerOrders := [makerLegSell]
        takerFillAmount := some 0, takerReceiveAmount := some 0
        makerFillAmounts := [0] } }

/-- C10 witness: the theorem at the all-zero-fill example. -/
theorem computeFillForTarget_maker_zero_undefined_witness :
    ∃ fb, computeFillForTarget (some decodedMakerZero) "0xAAAA" = some fb
      ∧ fb.role = Role.MAKER ∧ fb.shares = none ∧ fb.usdc = none := by
  obtain ⟨fb, heq, hrole, _, _, hall⟩ :=
    computeFillForTarget_maker_zero_undefined decodedMakerZero "0xAAAA" _
      rfl rfl (by decide) (by decide) (by decide)
  have hz : ∀ p ∈ makerMatchesOf [makerLegSell] (lowerStr "0xAAAA"),
      ∀ f, ([0] : List Int).get? p.1 = some f → f = 0 := by
    intro p hp f hf
    have hm : makerMatchesOf [makerLegSell] (lowerStr "0xAAAA")
        = [(0, makerLegSell)] := by decide
    rw [hm] at hp
    have hp' : p = (0, makerLegSell) := by simpa using hp
    subst hp'
    simp at hf
    omega
  obtain ⟨hsh, hus⟩ := hall hz
  exact ⟨fb, heq, hrole, hsh, hus⟩

/-! ## Claim C5 -/

/-- A prefix is never longer than the string it starts. -/
theorem charsPrefix_length : ∀ (p l : List Char),
    charsPrefix p l = true → p.length ≤ l.length
  | [], _, _ => Nat.zero_le _
  | _ :: _, [], h => by simp [charsPrefix] at h
  | a :: as, b :: bs, h => by
    simp only [charsPrefix, Bool.and_eq_true, decide_eq_true_eq] at h
    simpa using Nat.succ_le_succ (charsPrefix_length as bs h.2)

/-- Every list starts with itself, whatever follows. -/
theorem charsPrefix_append_self : ∀ (p t : List Char),
    charsPrefix p (p ++ t) = true
  | [], _ => rfl
  | a :: as, t => by
    simp [charsPrefix, charsPrefix_append_self as t]

/-- The empty needle is contained in everything. -/
theorem charsContains_nil : ∀ (l : List Char), charsContains l [] = true
  | [] => rfl
  | _ :: _ => by simp [charsContains, charsPrefix]

/-- A needle is found in any surrounding context. -/
theorem charsContains_append_mid : ∀ (a n b : List Char),
    charsContains (a ++ (n ++ b)) n = true
  | [], n, b => by
    cases n with
    | nil => simpa using charsContains_nil b
    | cons c cs =>
      simp only [List.nil_append, List.cons_append, charsContains]
      have h : charsPrefix (c :: cs) (c :: cs.append b) = true :=
        charsPrefix_append_self (c :: cs) b
      simp only [Bool.or_eq_true]
      exact Or.inl h
  | c :: cs, n, b => by
    simp [charsContains, charsContains_append_mid cs n b]

/-- lowerStr distributes over string append. -/
theorem lowerStr_append (a b : String) :
    lowerStr (a ++ b) = lowerStr a ++ lowerStr b := by
  show String.mk ((a ++ b).data.map Char.toLower)
      = String.mk (a.data.map Char.toLower ++ b.data.map Char.toLower)
  rw [String.data_append, List.map_append]

/-- The selector constant is already lowercase. -/
theorem lowerStr_selector : lowerStr MATCH_SELECTOR = MATCH_SELECTOR := by decide

/-- A string is empty exactly when its character list is. -/
theorem string_eq_empty_iff (s : String) : s = "" ↔ s.data = [] := by
  cases s with
  | mk d =>
    constructor
    · intro h
      exact congrArg String.data h
    · intro h
      exact congrArg String.mk h

/-- C5: matchesCalldata is false on every non-string input, every string
shorter than 4 bytes (10 hex characters with the 0x prefix) and every
string not starting with the selector; it is true exactly when the
lowercased input starts with the selector and contains the lowercased
needle — in particular on selector ++ needle ++ anything. -/
theorem matchesCalldata_spec :
    (∀ (needle sel : String), matchesCalldata none needle sel = false)
    ∧ (∀ (s needle : String), s.length < 10 →
        matchesCalldata (some s) needle = false)
    ∧ (∀ (s needle : String),
        jsStartsWith (lowerStr s) MATCH_SELECTOR = false →
        matchesCalldata (some s) needle = false)
    ∧ (∀ (s needle : String),
        matchesCalldata (some s) needle = true ↔
          (jsStartsWith (lowerStr s) MATCH_SELECTOR = true
            ∧ jsIncludes (lowerStr s) (lowerStr needle) = true))
    ∧ (∀ (needle trailer : String),
        matchesCalldata (some (MATCH_SELECTOR ++ needle ++ trailer)) needle
          = true) := by
  have hlen10 : (MATCH_SELECTOR.data).length = 10 := by decide
  refine ⟨fun _ _ => rfl, ?_, ?_, ?_, ?_⟩
  · intro s needle hlen
    have hsw : jsStartsWith (lowerStr s) MATCH_SELECTOR = false := by
      cases hv : jsStartsWith (lowerStr s) MATCH_SELECTOR with
      | false => rfl
      | true =>
        exfalso
        have hle := charsPrefix_length _ _ hv
        rw [hlen10] at hle
        have : (lowerStr s).data.length = s.data.length := by
          simp [lowerStr]
        rw [this] at hle
        have hsl : s.length = s.data.length := rfl
        omega
    by_cases hse : s = ""
    · simp [matchesCalldata, hse]
    · simp [matchesCalldata, hse, hsw]
  · intro s needle hsw
    by_cases hse : s = ""
    · simp [matchesCalldata, hse]
    · simp [matchesCalldata, hse, hsw]
  · intro s needle
    by_cases hse : s = ""
    · subst hse
      have hsw : jsStartsWith (lowerStr "") MATCH_SELECTOR = false := by decide
      simp [matchesCalldata, hsw]
    · cases hv : jsStartsWith (lowerStr s) MATCH_SELECTOR with
      | false => simp [matchesCalldata, hse, hv]
      | true => simp [matchesCalldata, hse, hv]
  · intro needle trailer
    have hne : (MATCH_SELECTOR ++ needle ++ trailer : String) ≠ "" := by
      intro h
      have h2 := congrArg List.length ((string_eq_empty_iff _).mp h)
      rw [String.data_append, String.data_append] at h2
      simp [List.length_append, hlen10] at h2
    have hdata : (lowerStr (MATCH_SELECTOR ++ needle ++ trailer)).data
        = MATCH_SELECTOR.data
          ++ ((lowerStr needle).data ++ (lowerStr trailer).data) := by
      rw [lowerStr_append, lowerStr_append, lowerStr_selector]
      rw [String.data_append, String.data_append, List.append_assoc]
    have hsw : jsStartsWith (lowerStr (MATCH_SELECTOR ++ needle ++ trailer))
        MATCH_SELECTOR = true := by
      unfold jsStartsWith
      rw [hdata]
      exact charsPrefix_append_self _ _
    have hinc : jsIncludes (lowerStr (MATCH_SELECTOR ++ needle ++ trailer))
        (lowerStr needle) = true := by
      unfold jsIncludes
      rw [hdata, ← List.append_assoc, List.append_assoc]
      exact charsContains_append_mid _ _ _
    simp [matchesCalldata, hne, hsw, hinc]

/-- C5 witness: the spec theorem at concrete inputs — a short string, a
string with the wrong selector, and a selector ++ needle ++ junk
superstring. -/
theorem matchesCalldata_spec_witness :
    matchesCalldata (some "0xab") "aa" = false
    ∧ matchesCalldata (some "0xdeadbeef00") "aa" = false
    ∧ matchesCalldata (some (MATCH_SELECTOR ++ "abcd" ++ "ffff")) "abcd" = true :=
  ⟨matchesCalldata_spec.2.1 "0xab" "aa" (by decide),
   matchesCalldata_spec.2.2.1 "0xdeadbeef00" "aa" (by decide),
   matchesCalldata_spec.2.2.2.2 "abcd" "ffff"⟩

/-! ## Claim C6 -/

/-- The makeHashCache state invariant: the membership set mirrors the
deque (JavaScript Sets iterate in insertion order), the deque is
duplicate-free, never longer than the capacity, and holds no falsy
hash. -/
def HashCacheInv (c : HashCache) : Prop :=
  c.set = c.deque ∧ c.deque.Nodup
    ∧ c.deque.length ≤ HASH_CACHE_SIZE ∧ "" ∉ c.deque

/-- Admitting a fresh non-falsy hash returns false and leaves the deque
equal to the old deque plus the hash, with the head shifted away exactly
when the capacity is exceeded. -/
theorem seen_fresh (c : HashCache) (h : String) (hne : h ≠ "")
    (hfresh : h ∉ c.deque) (hinv : HashCacheInv c) :
    (seen c (some h)).1 = false
    ∧ (seen c (some h)).2.deque
        = (c.deque ++ [h]).drop (c.deque.length + 1 - HASH_CACHE_SIZE)
    ∧ HashCacheInv (seen c (some h)).2 := by
  obtain ⟨dq, st⟩ := c
  obtain ⟨hset, hnd, hlen, hemp⟩ := hinv
  simp only at hset hnd hlen hemp hfresh ⊢
  have hmem : h ∉ st := by rw [hset]; exact hfresh
  have hadd : jsSetAdd st h = dq ++ [h] := by
    rw [jsSetAdd, if_neg hmem, hset]
  unfold seen
  rw [if_neg (by simp [strTruthy, hne])]
  simp only [Option.getD_some]
  rw [if_neg hmem]
  by_cases hfull : HASH_CACHE_SIZE < (dq ++ [h]).length
  · rw [if_pos hfull]
    have hlen' : dq.length = HASH_CACHE_SIZE := by
      rw [List.length_append] at hfull
      simp at hfull
      omega
    cases dq with
    | nil => simp [HASH_CACHE_SIZE] at hlen'
    | cons d0 dr =>
      have hd0 : d0 ≠ "" := by
        intro h0
        apply hemp
        rw [← h0]
        exact List.mem_cons_self d0 dr
      simp only [List.cons_append]
      rw [hadd]
      simp only [List.cons_append]
      rw [if_neg hd0, jsSetDelete, List.erase_cons_head]
      refine ⟨by trivial, ?_, ?_, ?_, ?_, ?_⟩
      · rw [show (d0 :: dr).length + 1 - HASH_CACHE_SIZE = 1 from by
          simp at hlen'
          simp [hlen']]
        rfl
      · rfl
      · simp only [List.nodup_cons] at hnd
        simp [List.nodup_append, hnd.2]
        intro hcontra
        exact hfresh (List.mem_cons_of_mem d0 hcontra)
      · simp at hlen' ⊢
        omega
      · simp only [List.mem_cons, not_or] at hemp
        simp [List.mem_append, hemp.2]
        exact fun hcontra => hne hcontra.symm
  · rw [if_neg hfull]
    refine ⟨by trivial, ?_, ?_, ?_, ?_, ?_⟩
    · rw [show dq.length + 1 - HASH_CACHE_SIZE = 0 from by
        rw [List.length_append] at hfull
        simp at hfull
        omega]
      rw [List.drop_zero]
    · exact hadd
    · simp [List.nodup_append, hnd]
      exact hfresh
    · rw [List.length_append] at hfull
      simp at hfull
      simp [List.length_append]
      omega
    · simp [List.mem_append, hemp]
      exact fun hcontra => hne hcontra.symm

/-- Dropping the rotated head: consuming t.length elements of the
shifted deque equals consuming t.length + 1 elements of the unshifted
one. -/
theorem drop_rotate_eq (A t : List String) (k : Nat) (hA : A.length = k + 1) :
    (A.drop 1 ++ t).drop t.length = (A ++ t).drop (t.length + 1) := by
  rw [List.drop_append_eq_append_drop, List.drop_append_eq_append_drop,
    List.drop_drop]
  rw [Nat.add_comm 1 t.length]
  rw [show t.length - (A.drop 1).length = t.length + 1 - A.length from by
    rw [List.length_drop, hA]
    omega]

/-- Feeding a duplicate-free batch of fresh, non-falsy hashes keeps the
invariant and leaves exactly the newest HASH_CACHE_SIZE entries. -/
theorem seenAll_fresh : ∀ (hs : List String) (c : HashCache),
    HashCacheInv c → hs.Nodup → (∀ x ∈ hs, x ≠ "" ∧ x ∉ c.deque) →
    (seenAll c hs).deque
      = (c.deque ++ hs).drop (c.deque.length + hs.length - HASH_CACHE_SIZE)
    ∧ HashCacheInv (seenAll c hs)
  | [], c, hinv, _, _ => by
    refine ⟨?_, hinv⟩
    rw [List.append_nil, List.length_nil, Nat.add_zero,
      Nat.sub_eq_zero_of_le hinv.2.2.1, List.drop_zero]
    rfl
  | h :: t, c, hinv, hnd, hfr => by
    obtain ⟨hf1, hf2⟩ := hfr h (List.mem_cons_self h t)
    obtain ⟨_, hdq, hinv1⟩ := seen_fresh c h hf1 hf2 hinv
    have hfr1 : ∀ x ∈ t, x ≠ "" ∧ x ∉ (seen c (some h)).2.deque := by
      intro x hx
      refine ⟨(hfr x (List.mem_cons_of_mem h hx)).1, ?_⟩
      intro hmem
      rw [hdq] at hmem
      have hmem2 := List.mem_of_mem_drop hmem
      rcases List.mem_append.mp hmem2 with hc | hc
      · exact (hfr x (List.mem_cons_of_mem h hx)).2 hc
      · have hxh : x = h := by simpa using hc
        rw [List.nodup_cons] at hnd
        exact hnd.1 (hxh ▸ hx)
    obtain ⟨hrec, hinvr⟩ :=
      seenAll_fresh t (seen c (some h)).2 hinv1 hnd.of_cons hfr1
    have hstep : seenAll c (h :: t) = seenAll (seen c (some h)).2 t := rfl
    refine ⟨?_, hstep ▸ hinvr⟩
    rw [hstep, hrec, hdq]
    have hlen := hinv.2.2.1
    by_cases hcase : c.deque.length < HASH_CACHE_SIZE
    · rw [show c.deque.length + 1 - HASH_CACHE_SIZE = 0 from by omega,
        List.drop_zero]
      rw [show (c.deque ++ [h]) ++ t = c.deque ++ h :: t from by
        rw [List.append_assoc]
        rfl]
      rw [show (c.deque ++ [h]).length + t.length - HASH_CACHE_SIZE
          = c.deque.length + (h :: t).length - HASH_CACHE_SIZE from by
        rw [List.length_append, List.length_singleton, List.length_cons]
        omega]
    · have hfullc : c.deque.length = HASH_CACHE_SIZE := by omega
      rw [show c.deque.length + 1 - HASH_CACHE_SIZE = 1 from by omega]
      have hL : ((c.deque ++ [h]).drop 1).length = HASH_CACHE_SIZE := by
        rw [List.length_drop, List.length_append, List.length_singleton]
        omega
      rw [hL]
      rw [show HASH_CACHE_SIZE + t.length - HASH_CACHE_SIZE = t.length from by
        omega]
      rw [show c.deque.length + (h :: t).length - HASH_CACHE_SIZE
          = t.length + 1 from by
        rw [List.length_cons]
        omega]
      rw [show c.deque ++ h :: t = (c.deque ++ [h]) ++ t from by
        rw [List.append_assoc]
        rfl]
      exact drop_rotate_eq _ t HASH_CACHE_SIZE
        (by rw [List.length_append, List.length_singleton]; omega)

/-- A hash already in the set is answered true without any mutation. -/
theorem seen_mem (c : HashCache) (h : String) (hinv : HashCacheInv c)
    (hmem : h ∈ c.set) : seen c (some h) = (true, c) := by
  have hne : h ≠ "" := by
    intro h0
    subst h0
    exact hinv.2.2.2 (hinv.1 ▸ hmem)
  unfold seen
  rw [if_neg (by simp [strTruthy, hne])]
  simp only [Option.getD_some]
  rw [if_pos hmem]

/-- C6: the recency set has capacity HASH_CACHE_SIZE = 1000; feeding
capacity+1 distinct non-empty hashes into a fresh cache evicts exactly
the first one (the deque is exactly the remaining 1000), a further seen()
call on the evicted hash answers false and re-admits it, and any seen()
call on a cached hash answers true without modifying the state. -/
theorem makeHashCache_spec :
    HASH_CACHE_SIZE = 1000
    ∧ (∀ (hs : List String), hs.length = HASH_CACHE_SIZE + 1 → hs.Nodup →
        (∀ x ∈ hs, x ≠ "") →
        ∃ h0 rest, hs = h0 :: rest
          ∧ (seenAll emptyHashCache hs).deque = rest
          ∧ h0 ∉ rest
          ∧ (seen (seenAll emptyHashCache hs) (some h0)).1 = false
          ∧ h0 ∈ (seen (seenAll emptyHashCache hs) (some h0)).2.deque)
    ∧ (∀ (c : HashCache) (h : String), HashCacheInv c → h ∈ c.set →
        seen c (some h) = (true, c)) := by
  refine ⟨rfl, ?_, seen_mem⟩
  intro hs hlen hnd hne
  have hinv0 : HashCacheInv emptyHashCache :=
    ⟨rfl, List.nodup_nil, by simp [emptyHashCache], by simp [emptyHashCache]⟩
  cases hs with
  | nil => simp at hlen
  | cons h0 rest =>
    obtain ⟨hdq, hinvf⟩ := seenAll_fresh (h0 :: rest) emptyHashCache hinv0 hnd
      (fun x hx => ⟨hne x hx, by simp [emptyHashCache]⟩)
    rw [List.length_cons] at hlen
    have hrlen : rest.length = HASH_CACHE_SIZE := by omega
    have hdq' : (seenAll emptyHashCache (h0 :: rest)).deque = rest := by
      rw [hdq]
      show (([] : List String) ++ h0 :: rest).drop
        (([] : List String).length + (h0 :: rest).length - HASH_CACHE_SIZE) = rest
      rw [List.nil_append, List.length_nil, List.length_cons, hrlen]
      rw [show 0 + (HASH_CACHE_SIZE + 1) - HASH_CACHE_SIZE = 1 from by omega]
      rfl
    have hnotmem : h0 ∉ rest := (List.nodup_cons.mp hnd).1
    have hfreshf : h0 ∉ (seenAll emptyHashCache (h0 :: rest)).deque := by
      rw [hdq']
      exact hnotmem
    obtain ⟨hb, hdq2, _⟩ := seen_fresh _ h0 (hne h0 (List.mem_cons_self h0 rest))
      hfreshf hinvf
    refine ⟨h0, rest, rfl, hdq', hnotmem, hb, ?_⟩
    rw [hdq2, hdq', hrlen]
    rw [show HASH_CACHE_SIZE + 1 - HASH_CACHE_SIZE = 1 from by omega]
    rw [List.drop_append_eq_append_drop]
    rw [show 1 - rest.length = 0 from by rw [hrlen]; simp [HASH_CACHE_SIZE]]
    rw [List.drop_zero]
    simp

/-- 1001 pairwise-distinct nonempty hashes: "a", "aa", "aaa", ... -/
def wHashes : List String :=
  (List.range (HASH_CACHE_SIZE + 1)).map
    fun n => String.mk (List.replicate (n + 1) 'a')

/-- C6 witness: the capacity theorem at the concrete batch wHashes, and
the membership clause at a one-element cache. -/
theorem makeHashCache_spec_witness :
    (∃ h0 rest, wHashes = h0 :: rest
      ∧ (seenAll emptyHashCache wHashes).deque = rest
      ∧ h0 ∉ rest
      ∧ (seen (seenAll emptyHashCache wHashes) (some h0)).1 = false
      ∧ h0 ∈ (seen (seenAll emptyHashCache wHashes) (some h0)).2.deque)
    ∧ seen { deque := ["h"], set := ["h"] } (some "h")
        = (true, { deque := ["h"], set := ["h"] }) := by
  constructor
  · apply makeHashCache_spec.2.1 wHashes
    · rw [wHashes, List.length_map, List.length_range]
    · apply List.Nodup.map ?inj (List.nodup_range _)
      case inj =>
        intro a b hab
        simp only at hab
        have hd : List.replicate (a + 1) 'a' = List.replicate (b + 1) 'a' :=
          congrArg String.data hab
        have hl := congrArg List.length hd
        simp only [List.length_replicate] at hl
        omega
    · intro x hx
      rw [wHashes] at hx
      obtain ⟨n, _, hxe⟩ := List.mem_map.mp hx
      intro hempty
      rw [← hxe] at hempty
      have hd : List.replicate (n + 1) 'a' = ([] : List Char) :=
        congrArg String.data hempty
      have hl := congrArg List.length hd
      simp at hl
  · exact makeHashCache_spec.2.2 _ "h"
      ⟨rfl, by decide, by decide, by decide⟩ (by decide)

/-! ## Claim C7 -/

/-- Deleting a key removes it from lookup. -/
theorem lookupKey_deleteKey {α : Type} (l : List (String × α)) (k : String) :
    lookupKey (deleteKey l k) k = none := by
  induction l with
  | nil => rfl
  | cons p rest ih =>
    by_cases hk : p.1 = k
    · simpa [deleteKey, hk] using ih
    · simpa [deleteKey, lookupKey, hk] using ih

/-- cacheGet on an absent key. -/
theorem cacheGet_absent {T : Type} (c : TtlCache T) (key : String) (now : Int)
    (h : lookupKey c.store key = none) : cacheGet c key now = (none, c) := by
  unfold cacheGet
  simp only [h]

/-- cacheGet on an expired entry deletes it and reports absence. -/
theorem cacheGet_expired {T : Type} (c : TtlCache T) (key : String) (now : Int)
    (entry : CacheEntry T) (h : lookupKey c.store key = some entry)
    (hexp : entry.expiresAt ≤ now) :
    cacheGet c key now = (none, { c with store := deleteKey c.store key }) := by
  unfold cacheGet
  simp only [h]
  rw [if_pos hexp]

/-- A cacheGet miss leaves no store entry behind for the key. -/
theorem cacheGet_miss_lookup {T : Type} (c : TtlCache T) (key : String)
    (now : Int) (hmiss : (cacheGet c key now).1 = none) :
    lookupKey (cacheGet c key now).2.store key = none := by
  rcases hl : lookupKey c.store key with _ | entry
  · rw [cacheGet_absent c key now hl]
    exact hl
  · by_cases hexp : entry.expiresAt ≤ now
    · rw [cacheGet_expired c key now entry hl hexp]
      exact lookupKey_deleteKey c.store key
    · exfalso
      unfold cacheGet at hmiss
      simp only [hl] at hmiss
      rw [if_neg hexp] at hmiss
      cases hmiss

/-- getOrSet on a store miss with no in-flight promise runs the producer:
a success is cached, a failure deletes the in-flight marker and
propagates. -/
theorem getOrSet_run {T : Type} (c : TtlCache T) (key : String)
    (ttl : Int) (producer : Except String T) (now : Int) (c1 : TtlCache T)
    (hget : cacheGet c key now = (none, c1))
    (hinf : lookupKey c1.inflight key = none) :
    getOrSet c key ttl producer now =
      (match producer with
      | Except.ok v =>
        (Except.ok v, true,
          cacheSet
            { c1 with
              inflight := deleteKey (setKey c1.inflight key (Except.ok v)) key }
            key v ttl now)
      | Except.error e =>
        (Except.error e, true,
          { c1 with
            inflight :=
              deleteKey (setKey c1.inflight key (Except.error e)) key })) := by
  unfold getOrSet
  simp only [hget, hinf]

/-- C7: a getOrSet whose producer fails removes the in-flight marker
before propagating the error — the very next getOrSet for the key runs
the producer again and returns its outcome instead of the stored failure
— and get treats an expired entry as absent, purging it; an expired
entry is never returned. -/
theorem createTtlCache_spec :
    (∀ (T : Type) (c : TtlCache T) (key : String) (ttl : Int) (e : String)
        (now : Int),
      (cacheGet c key now).1 = none →
      lookupKey c.inflight key = none →
      (getOrSet c key ttl (Except.error e) now).1 = Except.error e
      ∧ (getOrSet c key ttl (Except.error e) now).2.1 = true
      ∧ lookupKey (getOrSet c key ttl (Except.error e) now).2.2.inflight key
          = none
      ∧ lookupKey (getOrSet c key ttl (Except.error e) now).2.2.store key
          = none
      ∧ (∀ (p : Except String T) (ttl2 now2 : Int),
          (getOrSet (getOrSet c key ttl (Except.error e) now).2.2 key ttl2 p
            now2).1 = p
          ∧ (getOrSet (getOrSet c key ttl (Except.error e) now).2.2 key ttl2 p
              now2).2.1 = true))
    ∧ (∀ (T : Type) (c : TtlCache T) (key : String) (now : Int)
        (entry : CacheEntry T),
      lookupKey c.store key = some entry → entry.expiresAt ≤ now →
      cacheGet c key now = (none, { c with store := deleteKey c.store key }))
    ∧ (∀ (T : Type) (c : TtlCache T) (key : String) (now : Int) (v : T),
      (cacheGet c key now).1 = some v →
      ∃ entry, lookupKey c.store key = some entry ∧ entry.value = v
        ∧ now < entry.expiresAt) := by
  refine ⟨?_, ?_, ?_⟩
  · intro T c key ttl e now hmiss hinf
    have hstore := cacheGet_miss_lookup c key now hmiss
    rcases hg : cacheGet c key now with ⟨v1, c1⟩
    have hv1 : v1 = none := by rw [hg] at hmiss; exact hmiss
    subst hv1
    have hinf1 : lookupKey c1.inflight key = none := by
      rcases hl : lookupKey c.store key with _ | entry
      · have := cacheGet_absent c key now hl
        rw [hg] at this
        cases this
        exact hinf
      · by_cases hexp : entry.expiresAt ≤ now
        · have := cacheGet_expired c key now entry hl hexp
          rw [hg] at this
          cases this
          exact hinf
        · exfalso
          unfold cacheGet at hg
          simp only [hl] at hg
          rw [if_neg hexp] at hg
          cases hg
    have hstore1 : lookupKey c1.store key = none := by
      rw [hg] at hstore
      exact hstore
    have hrun := getOrSet_run c key ttl (Except.error e) now c1 hg hinf1
    set cafter : TtlCache T :=
      { c1 with
        inflight := deleteKey (setKey c1.inflight key (Except.error e)) key }
      with hcafter
    have hrun' : getOrSet c key ttl (Except.error e) now
        = (Except.error e, true, cafter) := hrun
    rw [hrun']
    have hinfa : lookupKey cafter.inflight key = none :=
      lookupKey_deleteKey _ key
    have hstorea : lookupKey cafter.store key = none := hstore1
    refine ⟨rfl, rfl, hinfa, hstorea, ?_⟩
    intro p ttl2 now2
    have hg2 : cacheGet cafter key now2 = (none, cafter) :=
      cacheGet_absent cafter key now2 hstorea
    have hrun2 := getOrSet_run cafter key ttl2 p now2 cafter hg2 hinfa
    rw [hrun2]
    cases p with
    | ok v => exact ⟨rfl, rfl⟩
    | error e2 => exact ⟨rfl, rfl⟩
  · intro T c key now entry hl hexp
    exact cacheGet_expired c key now entry hl hexp
  · intro T c key now v hv
    rcases hl : lookupKey c.store key with _ | entry
    · rw [cacheGet_absent c key now hl] at hv
      cases hv
    · by_cases hexp : entry.expiresAt ≤ now
      · rw [cacheGet_expired c key now entry hl hexp] at hv
        cases hv
      · unfold cacheGet at hv
        simp only [hl] at hv
        rw [if_neg hexp] at hv
        cases hv
        exact ⟨entry, rfl, rfl, by omega⟩

/-- C7 witness: the theorem at a concrete empty cache (failing producer
then a succeeding retry) and at a cache holding one expired entry. -/
theorem createTtlCache_spec_witness :
    (getOrSet (⟨[], []⟩ : TtlCache Nat) "k" 1000 (Except.error "boom") 0).1
        = Except.error "boom"
    ∧ lookupKey (getOrSet (⟨[], []⟩ : TtlCache Nat) "k" 1000
        (Except.error "boom") 0).2.2.inflight "k" = none
    ∧ (getOrSet (getOrSet (⟨[], []⟩ : TtlCache Nat) "k" 1000
        (Except.error "boom") 0).2.2 "k" 500 (Except.ok 7) 3).1 = Except.ok 7
    ∧ (getOrSet (getOrSet (⟨[], []⟩ : TtlCache Nat) "k" 1000
        (Except.error "boom") 0).2.2 "k" 500 (Except.ok 7) 3).2.1 = true
    ∧ cacheGet (⟨[("k", ⟨7, 5⟩)], []⟩ : TtlCache Nat) "k" 5
        = (none, ⟨deleteKey [("k", ⟨7, 5⟩)] "k", []⟩) := by
  obtain ⟨h1, _, h3, _, h5⟩ :=
    createTtlCache_spec.1 Nat ⟨[], []⟩ "k" 1000 "boom" 0 rfl rfl
  exact ⟨h1, h3, (h5 (Except.ok 7) 500 3).1, (h5 (Except.ok 7) 500 3).2,
    createTtlCache_spec.2.1 Nat _ "k" 5 ⟨7, 5⟩ rfl (by decide)⟩

/-! ## Claim C8 -/

/-- Rounding an integer-valued quantity to any number of decimals is the
identity. -/
theorem roundToDecimals_intCast (n : Int) (d : Nat) :
    roundToDecimals (n : ℚ) d = (n : ℚ) := by
  show ((⌊(n : ℚ) * (10 : ℚ)^d + 1/2⌋ : Int) : ℚ) / (10 : ℚ)^d = (n : ℚ)
  have h1 : (n : ℚ) * (10 : ℚ)^d = ((n * 10^d : Int) : ℚ) := by
    push_cast
    ring
  rw [h1, add_comm, Int.floor_add_int,
    show ⌊(1 : ℚ)/2⌋ = 0 from by norm_num [Int.floor_eq_zero_iff, Set.mem_Ico]]
  rw [zero_add]
  rw [div_eq_iff (by positivity : ((10 : ℚ)^d) ≠ 0)]
  push_cast
  ring

/-- C8: place returns simulated, for every venue, whenever signing
material or any API credential is absent or simulate-only is set; when
enabled, every creation or submission error is caught into a skipped
result carrying the error text, and a successful submission yields posted
with the venue order id — on the market path with the BUY amount from the
notional and the SELL amount from the size, and on the limit path with
rounded price and size. -/
theorem createCopyPlacer_place_spec :
    (∀ (O : Type) (cfg : PlacerConfig) (venue : Venue O) (intent : CopyIntent),
      (strTruthy cfg.privateKey = false ∨ strTruthy cfg.clobApiKey = false
        ∨ strTruthy cfg.clobApiSecret = false
        ∨ strTruthy cfg.clobApiPassphrase = false
        ∨ cfg.copySimulateOnly = true) →
      place cfg venue intent = PlaceResult.simulated intent)
    ∧ (∀ (O : Type) (cfg : PlacerConfig) (venue : Venue O) (intent : CopyIntent),
      placerEnabled cfg = true →
      (toOrderType cfg.copyOrderType = OrderTypeT.FOK
        ∨ toOrderType cfg.copyOrderType = OrderTypeT.FAK) →
      intent.side = Side.BUY →
      0 < roundToDecimals intent.notional 2 →
      (∀ e, venue.createMarketOrder intent.tokenId
          (roundToDecimals intent.notional 2) intent.side intent.price
          = Except.error e →
        place cfg venue intent = PlaceResult.skipped intent e)
      ∧ (∀ o e, venue.createMarketOrder intent.tokenId
            (roundToDecimals intent.notional 2) intent.side intent.price
            = Except.ok o →
          venue.postOrder o (toOrderType cfg.copyOrderType) = Except.error e →
          place cfg venue intent = PlaceResult.skipped intent e)
      ∧ (∀ o r, venue.createMarketOrder intent.tokenId
            (roundToDecimals intent.notional 2) intent.side intent.price
            = Except.ok o →
          venue.postOrder o (toOrderType cfg.copyOrderType) = Except.ok r →
          place cfg venue intent = PlaceResult.posted intent r.orderId))
    ∧ (∀ (O : Type) (cfg : PlacerConfig) (venue : Venue O) (intent : CopyIntent),
      placerEnabled cfg = true →
      (toOrderType cfg.copyOrderType = OrderTypeT.FOK
        ∨ toOrderType cfg.copyOrderType = OrderTypeT.FAK) →
      intent.side = Side.SELL →
      0 < roundToDecimals intent.size 4 →
      (∀ e, venue.createMarketOrder intent.tokenId
          (roundToDecimals intent.size 4) intent.side intent.price
          = Except.error e →
        place cfg venue intent = PlaceResult.skipped intent e)
      ∧ (∀ o e, venue.createMarketOrder intent.tokenId
            (roundToDecimals intent.size 4) intent.side intent.price
            = Except.ok o →
          venue.postOrder o (toOrderType cfg.copyOrderType) = Except.error e →
          place cfg venue intent = PlaceResult.skipped intent e)
      ∧ (∀ o r, venue.createMarketOrder intent.tokenId
            (roundToDecimals intent.size 4) intent.side intent.price
            = Except.ok o →
          venue.postOrder o (toOrderType cfg.copyOrderType) = Except.ok r →
          place cfg venue intent = PlaceResult.posted intent r.orderId))
    ∧ (∀ (O : Type) (cfg : PlacerConfig) (venue : Venue O) (intent : CopyIntent),
      placerEnabled cfg = true →
      ¬ (toOrderType cfg.copyOrderType = OrderTypeT.FOK
        ∨ toOrderType cfg.copyOrderType = OrderTypeT.FAK) →
      0 < roundToDecimals intent.price 4 →
      0 < roundToDecimals intent.size 4 →
      (∀ e, venue.createOrder intent.tokenId (roundToDecimals intent.price 4)
          (roundToDecimals intent.size 4) intent.side = Except.error e →
        place cfg venue intent = PlaceResult.skipped intent e)
      ∧ (∀ o e, venue.createOrder intent.tokenId (roundToDecimals intent.price 4)
            (roundToDecimals intent.size 4) intent.side = Except.ok o →
          venue.postOrder o (toOrderType cfg.copyOrderType) = Except.error e →
          place cfg venue intent = PlaceResult.skipped intent e)
      ∧ (∀ o r, venue.createOrder intent.tokenId (roundToDecimals intent.price 4)
            (roundToDecimals intent.size 4) intent.side = Except.ok o →
          venue.postOrder o (toOrderType cfg.copyOrderType) = Except.ok r →
          place cfg venue intent = PlaceResult.posted intent r.orderId)) := by
  refine ⟨?_, ?_, ?_, ?_⟩
  · intro O cfg venue intent h
    have hdis : placerEnabled cfg = false := by
      rcases h with h | h | h | h | h <;>
        simp [placerEnabled, hasCreds, h]
    simp only [place]
    rw [if_pos (by simp [hdis])]
  · intro O cfg venue intent hen hm hside hamt
    refine ⟨?_, ?_, ?_⟩
    · intro e hcr
      simp only [place]
      rw [if_neg (by simp [hen]), if_pos hm, if_pos hside,
        if_neg (not_le.mpr hamt)]
      simp only [hcr]
    · intro o e hcr hpost
      simp only [place]
      rw [if_neg (by simp [hen]), if_pos hm, if_pos hside,
        if_neg (not_le.mpr hamt)]
      simp only [hcr, hpost]
    · intro o r hcr hpost
      simp only [place]
      rw [if_neg (by simp [hen]), if_pos hm, if_pos hside,
        if_neg (not_le.mpr hamt)]
      simp only [hcr, hpost]
  · intro O cfg venue intent hen hm hside hamt
    have hnb : ¬ (intent.side = Side.BUY) := by
      rw [hside]
      decide
    refine ⟨?_, ?_, ?_⟩
    · intro e hcr
      simp only [place]
      rw [if_neg (by simp [hen]), if_pos hm, if_neg hnb,
        if_neg (not_le.mpr hamt)]
      simp only [hcr]
    · intro o e hcr hpost
      simp only [place]
      rw [if_neg (by simp [hen]), if_pos hm, if_neg hnb,
        if_neg (not_le.mpr hamt)]
      simp only [hcr, hpost]
    · intro o r hcr hpost
      simp only [place]
      rw [if_neg (by simp [hen]), if_pos hm, if_neg hnb,
        if_neg (not_le.mpr hamt)]
      simp only [hcr, hpost]
  · intro O cfg venue intent hen hm hprice hsize
    have hguard : ¬ (roundToDecimals intent.price 4 ≤ 0
        ∨ roundToDecimals intent.size 4 ≤ 0) := by
      push_neg
      exact ⟨hprice, hsize⟩
    refine ⟨?_, ?_, ?_⟩
    · intro e hcr
      simp only [place]
      rw [if_neg (by simp [hen]), if_neg hm, if_neg hguard]
      simp only [hcr]
    · intro o e hcr hpost
      simp only [place]
      rw [if_neg (by simp [hen]), if_neg hm, if_neg hguard]
      simp only [hcr, hpost]
    · intro o r hcr hpost
      simp only [place]
      rw [if_neg (by simp [hen]), if_neg hm, if_neg hguard]
      simp only [hcr, hpost]

/-- An enabled placer config (all credentials, live mode, FAK orders). -/
def cfgEnabled : PlacerConfig :=
  { privateKey := some "0xkey", clobApiKey := some "key"
    clobApiSecret := some "secret", clobApiPassphrase := some "pass"
    copySimulateOnly := false, copyOrderType := "FAK" }

/-- The same config with the signing key missing. -/
def cfgNoKey : PlacerConfig :=
  { privateKey := none, clobApiKey := some "key"
    clobApiSecret := some "secret", clobApiPassphrase := some "pass"
    copySimulateOnly := false, copyOrderType := "FAK" }

/-- A venue that accepts everything and reports order id "oid". -/
def venueOk : Venue Nat :=
  { createMarketOrder := fun _ _ _ _ => Except.ok 1
    createOrder := fun _ _ _ _ => Except.ok 1
    postOrder := fun _ _ => Except.ok ⟨some "oid"⟩ }

/-- A venue whose order creation always fails. -/
def venueFail : Venue Nat :=
  { createMarketOrder := fun _ _ _ _ => Except.error "rejected"
    createOrder := fun _ _ _ _ => Except.error "rejected"
    postOrder := fun _ _ => Except.ok ⟨some "oid"⟩ }

/-- A concrete BUY intent with notional 50. -/
def intentW : CopyIntent :=
  { tokenId := "tok", side := Side.BUY, size := 10, price := 1/2
    impliedPrice := 1/2, notional := 50, hash := none }

/-- C8 witness: the placer theorem at a disabled config (simulated), an
enabled config with a failing venue (skipped with the error text), and an
enabled config with an accepting venue (posted with the order id). -/
theorem createCopyPlacer_place_spec_witness :
    place cfgNoKey venueOk intentW = PlaceResult.simulated intentW
    ∧ place cfgEnabled venueFail intentW
        = PlaceResult.skipped intentW "rejected"
    ∧ place cfgEnabled venueOk intentW
        = PlaceResult.posted intentW (some "oid") := by
  have hamt : 0 < roundToDecimals intentW.notional 2 := by
    rw [show intentW.notional = ((50 : Int) : ℚ) from by norm_num [intentW],
      roundToDecimals_intCast]
    norm_num
  refine ⟨?_, ?_, ?_⟩
  · exact createCopyPlacer_place_spec.1 Nat cfgNoKey venueOk intentW
      (Or.inl rfl)
  · exact (createCopyPlacer_place_spec.2.1 Nat cfgEnabled venueFail intentW
      rfl (Or.inr (by decide)) rfl hamt).1 "rejected" rfl
  · exact (createCopyPlacer_place_spec.2.1 Nat cfgEnabled venueOk intentW
      rfl (Or.inr (by decide)) rfl hamt).2.2 1 ⟨some "oid"⟩ rfl rfl
